import Mathlib

/-!
# Resumable chunked upload: session engine

A shallow embedding of `main.go`: the upload session record, the session
registry, the chunk reader/writer loop `uploadFileInBackground` and the four
handlers `handleUpload`, `handlePause`, `handleResume`, `handleUploadStatus`.

Modelling choices.

* Go `int`/`int64` counters are natural numbers; the sizes involved are file
  lengths and chunk counts, far from the 64-bit range.
* `*UploadSession` pointers are indices into `State.heap`; the registry
  `uploadSessions` maps a token to such an index.
* A goroutine running `uploadFileInBackground` is a `Run`: the session
  pointer, the reader it was given and a program point `Pc`. One call of
  `uploadFileInBackground` below performs the code between two program
  points; every locked section of the Go function is one such step, so
  other operations interleave exactly between the locked sections.
* The outcome of the operating system at an I/O operation (open, read,
  write) is an input `Env` of the step.
* A handler body is one atomic transition.
* In Go a registry entry always points to a live session object; the handlers
  below answer 404 for an index outside the heap, a case no transition creates.
-/

namespace Resumable

/-- One byte of file content. -/
abbrev Byte := Nat

/-- The Go struct `UploadSession` (without its mutex). -/
structure UploadSession where
  FileName : String
  FilePath : String
  FileSize : Nat
  UploadedChunks : Nat
  TotalChunks : Nat
  Paused : Bool
  Terminated : Bool
  Completed : Bool
deriving DecidableEq

/-- The constant `chunkSize`. -/
def chunkSize : Nat := 100

/-- What the outside world does at an I/O operation of the loop. -/
inductive Env where
  /-- the operation succeeds; a read fills the buffer as far as data remain -/
  | ok
  /-- the operation returns an error (for a read: one other than `io.EOF`) -/
  | fail
  /-- a read succeeds but returns at most `k + 1` bytes -/
  | short (k : Nat)
deriving DecidableEq

/-- The error value returned by `Read`. -/
inductive ReadErr where
  | EOF
  | other
deriving DecidableEq

/-- A `multipart.File`: the bytes of the request part and the read offset. -/
structure File where
  data : List Byte
  pos : Nat
deriving DecidableEq

/-- The pair `(buf[:n], err)` returned by `file.Read(buf)`. -/
structure ReadResult where
  buf : List Byte
  err : Option ReadErr
deriving DecidableEq

/-- Reading at most `m` bytes at the current offset: `0, io.EOF` at the end of
the data, otherwise the next `min m remaining` bytes. -/
def File.readN (f : File) (m : Nat) : ReadResult × File :=
  if f.data.length ≤ f.pos then (⟨[], some ReadErr.EOF⟩, f)
  else
    let bs := (f.data.drop f.pos).take m
    (⟨bs, none⟩, { f with pos := f.pos + bs.length })

/-- The call `file.Read(buf)` with `len(buf) = max`. -/
def File.Read (f : File) (max : Nat) (env : Env) : ReadResult × File :=
  match env with
  | Env.fail => (⟨[], some ReadErr.other⟩, f)
  | Env.ok => f.readN max
  | Env.short k => f.readN (min max (k + 1))

/-- The call `file.Seek(offset, io.SeekStart)`; `none` is a seek error. -/
def File.Seek (f : File) (offset : Nat) (seekFails : Bool) : Option File :=
  if seekFails then none else some { f with pos := offset }

/-- The file system: path and content of every file. -/
abbrev Disk := List (String × List Byte)

/-- Content of the file at `path`, when it exists. -/
def Disk.content (d : Disk) (path : String) : Option (List Byte) :=
  d.lookup path

/-- The effect of `os.OpenFile(path, O_APPEND|O_CREATE|O_WRONLY, 0644)`:
the file is created empty when absent. -/
def Disk.openAppend (d : Disk) (path : String) : Disk :=
  match d.lookup path with
  | some _ => d
  | none => d ++ [(path, [])]

/-- The effect of `Write` on a file opened with `O_APPEND`. -/
def Disk.append (d : Disk) (path : String) (bs : List Byte) : Disk :=
  d.map (fun e => if e.1 = path then (e.1, e.2 ++ bs) else e)

/-- Program points of `uploadFileInBackground`. -/
inductive Pc where
  /-- line 72: the test of `session.Completed` -/
  | entry
  /-- line 75: `os.OpenFile` -/
  | openFile
  /-- lines 84-86: `session.Completed = false` under the lock -/
  | rearm
  /-- lines 89-94: the test of `Paused || Terminated` under the lock -/
  | check
  /-- lines 96-109: `file.Read(buf)` and the tests of `err` and `n` -/
  | read
  /-- lines 111-115: `outFile.Write(buf[:n])` -/
  | write (buf : List Byte)
  /-- lines 117-124: the increment and the test against `TotalChunks` -/
  | count
  /-- lines 126-131: the test of `Paused` under the lock -/
  | pauseCheck
  /-- lines 134-136: `session.Completed = true` after the loop -/
  | finish
  /-- the function has returned -/
  | done
deriving DecidableEq

/-- A goroutine executing `uploadFileInBackground(file, session)`. -/
structure Run where
  session : Nat
  file : File
  pc : Pc
deriving DecidableEq

/-- One step of `uploadFileInBackground(file, session)`: the code from the
program point `run.pc` to the next one. The destination is addressed by
`session.FilePath`, which no code ever changes after creation. A failing
write is taken to append nothing. -/
def uploadFileInBackground (session : UploadSession) (disk : Disk) (run : Run) (env : Env) :
    UploadSession × Disk × Run :=
  match run.pc with
  | Pc.entry =>
    if session.Completed then (session, disk, { run with pc := Pc.done })
    else (session, disk, { run with pc := Pc.openFile })
  | Pc.openFile =>
    match env with
    | Env.fail => (session, disk, { run with pc := Pc.done })
    | _ => (session, disk.openAppend session.FilePath, { run with pc := Pc.rearm })
  | Pc.rearm => ({ session with Completed := false }, disk, { run with pc := Pc.check })
  | Pc.check =>
    if session.Paused || session.Terminated then (session, disk, { run with pc := Pc.done })
    else (session, disk, { run with pc := Pc.read })
  | Pc.read =>
    let res := run.file.Read chunkSize env
    match res.1.err with
    | some ReadErr.EOF => (session, disk, { run with file := res.2, pc := Pc.finish })
    | some ReadErr.other => (session, disk, { run with file := res.2, pc := Pc.done })
    | none =>
      if res.1.buf.length = 0 then (session, disk, { run with file := res.2, pc := Pc.finish })
      else (session, disk, { run with file := res.2, pc := Pc.write res.1.buf })
  | Pc.write buf =>
    match env with
    | Env.fail => (session, disk, { run with pc := Pc.done })
    | _ => (session, disk.append session.FilePath buf, { run with pc := Pc.count })
  | Pc.count =>
    let s1 := { session with UploadedChunks := session.UploadedChunks + 1 }
    let s2 := if s1.UploadedChunks ≥ s1.TotalChunks then { s1 with Completed := true } else s1
    (s2, disk, { run with pc := Pc.pauseCheck })
  | Pc.pauseCheck =>
    if session.Paused then (session, disk, { run with pc := Pc.done })
    else (session, disk, { run with pc := Pc.check })
  | Pc.finish => ({ session with Completed := true }, disk, { run with pc := Pc.done })
  | Pc.done => (session, disk, run)

/-- The whole server: session objects, the registry, the disk and the
goroutines running the loop. -/
structure State where
  heap : List UploadSession
  uploadSessions : List (String × Nat)
  disk : Disk
  runs : List Run
deriving DecidableEq

/-- The server right after `main` has started listening. -/
def State.init : State := ⟨[], [], [], []⟩

/-- The lookup `getSession(sessionID)`: the pointer and `exists`. -/
def getSession (st : State) (sessionID : String) : Option Nat :=
  st.uploadSessions.lookup sessionID

/-- The assignment `uploadSessions[sessionID] = session`. -/
def State.register (st : State) (sessionID : String) (p : Nat) : List (String × Nat) :=
  (sessionID, p) :: st.uploadSessions.filter (fun e => e.1 ≠ sessionID)

/-- The function `generateSessionID`, given the clock reading `time.Now().UnixNano()`. -/
def generateSessionID (unixNano : Nat) : String := toString unixNano

/-- What a handler writes to the `http.ResponseWriter`. -/
inductive Response where
  /-- the call `http.Error(w, msg, code)` -/
  | error (code : Nat) (msg : String)
  /-- status 200 with a text body -/
  | text (body : String)
  /-- status 200 with the session token of `handleUpload` -/
  | sessionID (id : String)
  /-- status 200 with the four fields of `handleUploadStatus` -/
  | status (UploadedChunks TotalChunks : Nat) (Paused Completed : Bool)
deriving DecidableEq

/-- The uploaded part of a request: the header's file name, the bytes, and
whether seeking in the part fails. -/
structure FormFile where
  Filename : String
  data : List Byte
  seekFails : Bool
deriving DecidableEq

/-- The handler `handleUpload`; `form = none` is a failing `r.FormFile("file")`,
`unixNano` the clock reading used for the token. The size is the offset that
`file.Seek(0, io.SeekEnd)` returns, the length of the part. The path is
`filepath.Join("uploads", header.Filename)`, taken without the cleaning of
dots and slashes that `Join` performs. The new goroutine is appended to `runs`
with its reader rewound to offset 0. -/
def handleUpload (st : State) (form : Option FormFile) (unixNano : Nat) : State × Response :=
  match form with
  | none => (st, Response.error 400 "File upload error")
  | some f =>
    if f.seekFails then (st, Response.error 500 "Failed to get file size")
    else
      let fileSize := f.data.length
      let sessionID := generateSessionID unixNano
      let session : UploadSession :=
        { FileName := f.Filename
          FilePath := "uploads/" ++ f.Filename
          FileSize := fileSize
          UploadedChunks := 0
          TotalChunks := fileSize / chunkSize
          Paused := false
          Terminated := false
          Completed := false }
      let p := st.heap.length
      ({ heap := st.heap ++ [session]
         uploadSessions := st.register sessionID p
         disk := st.disk
         runs := st.runs ++ [⟨p, ⟨f.data, 0⟩, Pc.entry⟩] },
       Response.sessionID sessionID)

/-- Replace the session object at pointer `p`. -/
def State.store (st : State) (p : Nat) (s : UploadSession) : State :=
  { st with heap := st.heap.set p s }

/-- The handler `handlePause`. -/
def handlePause (st : State) (sessionID : String) : State × Response :=
  match getSession st sessionID with
  | none => (st, Response.error 404 "Session not found")
  | some p =>
    match st.heap[p]? with
    | none => (st, Response.error 404 "Session not found")
    | some session => (st.store p { session with Paused := true }, Response.text "Upload paused")

/-- The handler `handleResume`; `form = none` is a failing `r.FormFile("file")`.
As in the source, `Paused` is tested and cleared in one locked section, and
the part is obtained and repositioned only afterwards. -/
def handleResume (st : State) (sessionID : String) (form : Option FormFile) : State × Response :=
  match getSession st sessionID with
  | none => (st, Response.error 404 "Session not found")
  | some p =>
    match st.heap[p]? with
    | none => (st, Response.error 404 "Session not found")
    | some session =>
      if session.Completed || !session.Paused then
        (st, Response.error 409 "Upload cannot be resumed")
      else
        let session := { session with Paused := false }
        let st := st.store p session
        match form with
        | none => (st, Response.error 400 "File upload error")
        | some f =>
          match (File.mk f.data 0).Seek (session.UploadedChunks * chunkSize) f.seekFails with
          | none => (st, Response.error 500 "Failed to seek file")
          | some file =>
            ({ st with runs := st.runs ++ [⟨p, file, Pc.entry⟩] }, Response.text "Upload resumed")

/-- The handler `handleUploadStatus`. -/
def handleUploadStatus (st : State) (sessionID : String) : State × Response :=
  match getSession st sessionID with
  | none => (st, Response.error 404 "Session not found")
  | some p =>
    match st.heap[p]? with
    | none => (st, Response.error 404 "Session not found")
    | some session =>
      (st, Response.status session.UploadedChunks session.TotalChunks session.Paused
        session.Completed)

/-- Goroutine `i` performs its next step, with the I/O outcome `env`. -/
def State.stepRun (st : State) (i : Nat) (env : Env) : State :=
  match st.runs[i]? with
  | none => st
  | some run =>
    match st.heap[run.session]? with
    | none => st
    | some session =>
      let r := uploadFileInBackground session st.disk run env
      { st with heap := st.heap.set run.session r.1, disk := r.2.1, runs := st.runs.set i r.2.2 }

/-- What can happen next in the server. -/
inductive Event where
  | upload (form : Option FormFile) (unixNano : Nat)
  | pause (sessionID : String)
  | resume (sessionID : String) (form : Option FormFile)
  | status (sessionID : String)
  | step (i : Nat) (env : Env)
deriving DecidableEq

/-- The state after one event. -/
def State.apply (st : State) (e : Event) : State :=
  match e with
  | Event.upload form unixNano => (handleUpload st form unixNano).1
  | Event.pause id => (handlePause st id).1
  | Event.resume id form => (handleResume st id form).1
  | Event.status id => (handleUploadStatus st id).1
  | Event.step i env => st.stepRun i env

/-- The state after a sequence of events. -/
def State.exec (st : State) (es : List Event) : State :=
  es.foldl State.apply st

/-- The session a token currently denotes. -/
def State.session (st : State) (sessionID : String) : Option UploadSession :=
  match getSession st sessionID with
  | none => none
  | some p => st.heap[p]?

/-- Whether the goroutine has returned. -/
def Run.finished (r : Run) : Bool :=
  match r.pc with
  | Pc.done => true
  | _ => false

/-- No goroutine is inside `uploadFileInBackground`. -/
def State.idle (st : State) : Bool :=
  st.runs.all Run.finished

/-- Events other than `upload` and `pause`. -/
def Event.noPause : Event → Bool
  | Event.upload _ _ => false
  | Event.pause _ => false
  | _ => true

/-- Events of one transfer of `len` bytes: no second `upload`, and every
`resume` that carries a file carries one of `len` bytes. -/
def Event.sameLength (len : Nat) : Event → Bool
  | Event.upload _ _ => false
  | Event.resume _ (some f) => decide (f.data.length = len)
  | _ => true

/-- An event of a sequential, error-free transfer of `src`: no second
`upload`; every I/O operation succeeds with full reads; a `resume` carries
the bytes `src` in a seekable part, and is issued when no goroutine is
running the loop or else is answered with 409. -/
def sequentialEvent (src : List Byte) (st : State) : Event → Bool
  | Event.upload _ _ => false
  | Event.pause _ => true
  | Event.status _ => true
  | Event.step _ env => decide (env = Env.ok)
  | Event.resume id form =>
    (match form with
      | none => false
      | some f => decide (f.data = src) && !f.seekFails)
    && (st.idle
        || decide ((handleResume st id form).2 = Response.error 409 "Upload cannot be resumed"))

/-- A sequence of events in which every event is a `sequentialEvent` of the
state it happens in. -/
def sequential (src : List Byte) : State → List Event → Bool
  | _, [] => true
  | st, e :: es => sequentialEvent src st e && sequential src (st.apply e) es

/-- Progress still owed by a goroutine, by program point: with `u` chunks
counted, `total` is reached once the rest of a `len`-byte source is read. -/
def Run.owes (len u total : Nat) (r : Run) : Prop :=
  match r.pc with
  | Pc.write _ => total ≤ u + 1 + (len - r.file.pos) / 100
  | Pc.count => total ≤ u + 1 + (len - r.file.pos) / 100
  | Pc.finish => total ≤ u
  | Pc.done => True
  | _ => total ≤ u + (len - r.file.pos) / 100

/-- Invariant of one transfer of a `len`-byte source registered under
`id`: the only session object is the one of the transfer, `Completed` implies
that `TotalChunks` is reached, and every goroutine satisfies `Run.owes`. -/
def Consistent (len : Nat) (id : String) (st : State) : Prop :=
  ∃ s, st.heap = [s] ∧ st.uploadSessions = [(id, 0)] ∧ s.TotalChunks = len / 100
    ∧ (s.Completed = true → s.TotalChunks ≤ s.UploadedChunks)
    ∧ ∀ r ∈ st.runs, r.session = 0 ∧ r.file.data.length = len
        ∧ r.owes len s.UploadedChunks s.TotalChunks

/-- Position of a goroutine's reader against the chunk counter, by program
point, for a `len`-byte source and `u` counted chunks. -/
def Run.aligned (len u : Nat) (r : Run) : Prop :=
  match r.pc with
  | Pc.write _ => u * 100 < len ∧ r.file.pos = min (u * 100 + 100) len
  | Pc.count => u * 100 < len ∧ r.file.pos = min (u * 100 + 100) len
  | Pc.finish => True
  | Pc.done => True
  | _ => min r.file.pos len = min (u * 100) len

/-- Invariant of a sequential transfer of a `len`-byte source registered
under `id`: the counter is at most one chunk past the source, only the last
goroutine can still be running, and its reader is `Run.aligned`. -/
def OneAtATime (len : Nat) (id : String) (st : State) : Prop :=
  ∃ s ds r, st.heap = [s] ∧ st.uploadSessions = [(id, 0)] ∧ s.TotalChunks = len / 100
    ∧ s.UploadedChunks * 100 < len + 100
    ∧ st.runs = ds ++ [r] ∧ (∀ d ∈ ds, d.pc = Pc.done)
    ∧ r.session = 0 ∧ r.file.data.length = len ∧ r.aligned len s.UploadedChunks

/-- The counting step of the loop. -/
def countChunk (s : UploadSession) : UploadSession :=
  (uploadFileInBackground s [] ⟨0, ⟨[], 0⟩, Pc.count⟩ Env.ok).1

/-- The session object that `handleUpload` creates for a part named
`Filename` of `fileSize` bytes. -/
def freshSession (Filename : String) (fileSize : Nat) : UploadSession :=
  { FileName := Filename
    FilePath := "uploads/" ++ Filename
    FileSize := fileSize
    UploadedChunks := 0
    TotalChunks := fileSize / chunkSize
    Paused := false
    Terminated := false
    Completed := false }

/-- The 250-byte source of the resume scenario: the bytes 0, 1, ..., 249. -/
def source250 : List Byte := List.range 250

/-- The server after `handleUpload` of `source250` as part `f` at clock reading 1. -/
def started250 : State :=
  (handleUpload State.init (some ⟨"f", source250, false⟩) 1).1

/-- The session of `started250` once it is paused after its first chunk. -/
def pausedSession : UploadSession :=
  { FileName := "f", FilePath := "uploads/f", FileSize := 250, UploadedChunks := 1,
    TotalChunks := 2, Paused := true, Terminated := false, Completed := false }

/-- The server after `started250`, seven steps of the goroutine (the first
chunk is written and counted), a Pause, and the step in which the goroutine
sees it and returns. Its session is `pausedSession`. -/
def pausedState : State :=
  ((started250.exec (List.replicate 7 (Event.step 0 Env.ok))).apply (Event.pause "1")).apply
    (Event.step 0 Env.ok)

/-- The resume scenario up to the return of the first goroutine: it takes `k`
steps, then Pause is called, then it takes three more steps. -/
def pausedAfter (k : Nat) : State :=
  (((started250.exec (List.replicate k (Event.step 0 Env.ok))).apply (Event.pause "1")).exec
    (List.replicate 3 (Event.step 0 Env.ok)))

/-- The four fields of a session that Status reports. -/
def UploadSession.snapshot (s : UploadSession) : Nat × Nat × Bool × Bool :=
  (s.UploadedChunks, s.TotalChunks, s.Paused, s.Completed)

/-- What the code does in the resume scenario when Pause comes after `k` steps
of the first goroutine: the two chunks are on disk before the Pause; the
goroutine has returned with two chunks counted, `Paused` and `Completed` set;
Resume with the same bytes is answered 409 and changes nothing; the
destination holds the first 200 bytes, not the source. -/
def ResumeRejected (k : Nat) : Prop :=
  (started250.exec (List.replicate k (Event.step 0 Env.ok))).disk.content "uploads/f"
    = some (source250.take 200)
  ∧ (pausedAfter k).idle = true
  ∧ ((pausedAfter k).session "1").map UploadSession.snapshot = some (2, 2, true, true)
  ∧ handleResume (pausedAfter k) "1" (some ⟨"f", source250, false⟩)
      = (pausedAfter k, Response.error 409 "Upload cannot be resumed")
  ∧ (pausedAfter k).disk.content "uploads/f" = some (source250.take 200)
  ∧ (pausedAfter k).disk.content "uploads/f" ≠ some source250

/-- Start of 250 bytes, Pause before the first check, Resume with an empty
part, and the resumed goroutine run to its return. -/
def resumedWithEmpty : State :=
  started250.exec
    ([Event.pause "1"] ++ List.replicate 4 (Event.step 0 Env.ok)
      ++ [Event.resume "1" (some ⟨"f", [], false⟩)] ++ List.replicate 6 (Event.step 1 Env.ok))

/-- Start of 250 bytes, paused before the first check, the goroutine returned. -/
def pausedAtStart : State :=
  started250.exec ([Event.pause "1"] ++ List.replicate 4 (Event.step 0 Env.ok))

/-- Whether the event registers the token `id`: a successful `handleUpload`
whose generated token is `id`. -/
def Event.creates (id : String) : Event → Bool
  | Event.upload (some f) unixNano => !f.seekFails && decide (generateSessionID unixNano = id)
  | _ => false

/-- Consecutive steps of one goroutine, nothing else happening in between:
one call of `uploadFileInBackground` per I/O outcome in the list. -/
def runSteps : List Env → UploadSession × Disk × Run → UploadSession × Disk × Run
  | [], x => x
  | env :: envs, x => runSteps envs (uploadFileInBackground x.1 x.2.1 x.2.2 env)

/-- The bytes of the file at `path`, none when the file does not exist. -/
def Disk.bytes (d : Disk) (path : String) : List Byte :=
  (d.content path).getD []

/-- The disk holds no file other than the one at `path`. -/
def Disk.only (d : Disk) (path : String) : Prop :=
  d = [] ∨ ∃ c, d = [(path, c)]

/-- Destination and reader of a goroutine against the chunk counter, by
program point, in a sequential transfer of `src` to `path`. -/
def Run.synced (src : List Byte) (path : String) (s : UploadSession) (d : Disk) (r : Run) :
    Prop :=
  match r.pc with
  | Pc.entry =>
    d.bytes path = src.take (s.UploadedChunks * 100)
    ∧ min r.file.pos src.length = min (s.UploadedChunks * 100) src.length
    ∧ (s.Completed = false → s.UploadedChunks * 100 ≤ src.length)
  | Pc.openFile =>
    d.bytes path = src.take (s.UploadedChunks * 100)
    ∧ min r.file.pos src.length = min (s.UploadedChunks * 100) src.length
    ∧ s.UploadedChunks * 100 ≤ src.length ∧ s.Completed = false
  | Pc.rearm =>
    d.bytes path = src.take (s.UploadedChunks * 100)
    ∧ min r.file.pos src.length = min (s.UploadedChunks * 100) src.length
    ∧ s.UploadedChunks * 100 ≤ src.length ∧ s.Completed = false ∧ d ≠ []
  | Pc.write buf =>
    d.bytes path = src.take (s.UploadedChunks * 100)
    ∧ s.UploadedChunks * 100 < src.length
    ∧ buf = (src.drop (s.UploadedChunks * 100)).take 100
    ∧ r.file.pos = min (s.UploadedChunks * 100 + 100) src.length ∧ d ≠ []
  | Pc.count =>
    d.bytes path = src.take (s.UploadedChunks * 100 + 100)
    ∧ s.UploadedChunks * 100 < src.length
    ∧ r.file.pos = min (s.UploadedChunks * 100 + 100) src.length ∧ d ≠ []
  | Pc.finish =>
    d.bytes path = src.take (s.UploadedChunks * 100)
    ∧ (s.Completed = false → s.UploadedChunks * 100 ≤ src.length)
  | Pc.done =>
    d.bytes path = src.take (s.UploadedChunks * 100)
    ∧ (s.Completed = false → s.UploadedChunks * 100 ≤ src.length)
  | _ =>
    d.bytes path = src.take (s.UploadedChunks * 100)
    ∧ min r.file.pos src.length = min (s.UploadedChunks * 100) src.length
    ∧ (s.Completed = false → s.UploadedChunks * 100 ≤ src.length) ∧ d ≠ []

/-- Invariant of a sequential transfer of `src` to `path`, registered under
`id`: one session, at most the destination on disk, only the last goroutine
possibly running, reading `src`, and `Run.synced`. -/
def Synced (src : List Byte) (id path : String) (st : State) : Prop :=
  ∃ s ds r, st.heap = [s] ∧ st.uploadSessions = [(id, 0)] ∧ s.FilePath = path
    ∧ s.TotalChunks = src.length / 100
    ∧ st.runs = ds ++ [r] ∧ (∀ d ∈ ds, d.pc = Pc.done)
    ∧ r.session = 0 ∧ r.file.data = src ∧ st.disk.only path ∧ r.synced src path s st.disk

/-- An event of an execution in which the loop runs one goroutine at a time:
no second `upload`, and a `resume` launches a goroutine only when none is
running the loop. -/
def exclusiveEvent (st : State) : Event → Bool
  | Event.upload _ _ => false
  | Event.resume id form => st.idle || decide ((handleResume st id form).1.runs = st.runs)
  | _ => true

/-- A sequence of events in which every event is an `exclusiveEvent` of the
state it happens in. -/
def exclusive : State → List Event → Bool
  | _, [] => true
  | st, e :: es => exclusiveEvent st e && exclusive (st.apply e) es

/-- Invariant of a one-at-a-time transfer registered under `id`: only the
last goroutine can still be running, and while it stands between its test of
`Completed` and the re-arm, `Completed` is false. -/
def Rearmable (id : String) (st : State) : Prop :=
  ∃ s ds r, st.heap = [s] ∧ st.uploadSessions = [(id, 0)]
    ∧ st.runs = ds ++ [r] ∧ (∀ d ∈ ds, d.pc = Pc.done) ∧ r.session = 0
    ∧ ((r.pc = Pc.openFile ∨ r.pc = Pc.rearm) → s.Completed = false)

/-- The race of Pause and Resume on the 250-byte transfer up to the Resume:
the first goroutine passes its check and is about to read, then Pause and
Resume with the same bytes are served. -/
def raceResumed : State :=
  started250.exec
    (List.replicate 4 (Event.step 0 Env.ok)
      ++ [Event.pause "1", Event.resume "1" (some ⟨"f", source250, false⟩)])

/-- The race continued: the two goroutines take their steps in turn, five
steps each, until both have returned. -/
def raceFinished : State :=
  raceResumed.exec
    (List.replicate 4 (Event.step 1 Env.ok)
      ++ (List.replicate 4
          (List.replicate 5 (Event.step 0 Env.ok) ++ List.replicate 5 (Event.step 1 Env.ok))).flatten)

/-- The 250-byte transfer right after the first write: six steps of the
first goroutine, the chunk is in the file and not yet counted. -/
def firstChunkWritten : State :=
  started250.exec (List.replicate 6 (Event.step 0 Env.ok))

/-! ## Auxiliary lemmas -/

theorem session_eq_some {st : State} {id : String} {s : UploadSession}
    (h : st.session id = some s) : ∃ p, getSession st id = some p ∧ st.heap[p]? = some s := by
  unfold State.session at h
  cases hp : getSession st id with
  | none => simp [hp] at h
  | some p => exact ⟨p, rfl, by simpa [hp] using h⟩

@[simp] theorem getSession_store (st : State) (p : Nat) (s : UploadSession) (id : String) :
    getSession (st.store p s) id = getSession st id := rfl

@[simp] theorem heap_store (st : State) (p : Nat) (s : UploadSession) :
    (st.store p s).heap = st.heap.set p s := rfl

theorem lt_of_getElem?_eq_some {α : Type} {l : List α} {i : Nat} {a : α}
    (h : l[i]? = some a) : i < l.length := by
  by_contra hge
  rw [List.getElem?_eq_none (by omega)] at h
  cases h

theorem store_store (st : State) (p : Nat) (s t : UploadSession) :
    (st.store p s).store p t = st.store p t := by
  simp [State.store, List.set_set]

/-- A step of the loop changes only `UploadedChunks` and `Completed`. -/
theorem uploadFileInBackground_frame (s : UploadSession) (d : Disk) (r : Run) (env : Env) :
    (uploadFileInBackground s d r env).1.FileName = s.FileName
    ∧ (uploadFileInBackground s d r env).1.FilePath = s.FilePath
    ∧ (uploadFileInBackground s d r env).1.FileSize = s.FileSize
    ∧ (uploadFileInBackground s d r env).1.TotalChunks = s.TotalChunks
    ∧ (uploadFileInBackground s d r env).1.Paused = s.Paused
    ∧ (uploadFileInBackground s d r env).1.Terminated = s.Terminated
    ∧ (uploadFileInBackground s d r env).2.2.session = r.session
    ∧ (uploadFileInBackground s d r env).2.2.file.data = r.file.data
    ∧ s.UploadedChunks ≤ (uploadFileInBackground s d r env).1.UploadedChunks := by
  unfold uploadFileInBackground
  split
  · split <;> simp
  · split <;> simp
  · simp
  · split <;> simp
  · dsimp only
    have hd : (r.file.Read chunkSize env).2.data = r.file.data := by
      unfold File.Read File.readN
      cases env <;> simp <;> split <;> simp
    split
    · simp [hd]
    · simp [hd]
    · split <;> simp [hd]
  · split <;> simp
  · dsimp only
    split <;> simp
  · split <;> simp
  · simp
  · simp

/-- Writing a session object whose `Paused` is false keeps `Paused` false at
every pointer where it was false. -/
theorem paused_false_set (heap : List UploadSession) (q : Nat) (t : UploadSession)
    (ht : t.Paused = false) (p : Nat) (s : UploadSession)
    (hs : heap[p]? = some s) (hp : s.Paused = false) :
    ∃ s', (heap.set q t)[p]? = some s' ∧ s'.Paused = false := by
  have hlt := lt_of_getElem?_eq_some hs
  by_cases hq : q = p
  · subst hq
    exact ⟨t, by simp [hlt], ht⟩
  · exact ⟨s, by rw [List.getElem?_set_ne hq]; exact hs, hp⟩

theorem uploadFileInBackground_paused (s : UploadSession) (d : Disk) (r : Run) (env : Env) :
    (uploadFileInBackground s d r env).1.Paused = s.Paused := by
  unfold uploadFileInBackground
  split
  · split <;> simp
  · split <;> simp
  · simp
  · split <;> simp
  · dsimp only
    split
    · simp
    · simp
    · split <;> simp
  · split <;> simp
  · dsimp only
    split <;> simp
  · split <;> simp
  · simp
  · simp

theorem noPause_keeps (st : State) (e : Event) (he : e.noPause = true) (p : Nat)
    (s : UploadSession) (hs : st.heap[p]? = some s) (hp : s.Paused = false) :
    (st.apply e).uploadSessions = st.uploadSessions
    ∧ ∃ s', (st.apply e).heap[p]? = some s' ∧ s'.Paused = false := by
  cases e with
  | upload form n => simp [Event.noPause] at he
  | pause id => simp [Event.noPause] at he
  | status id =>
    simp only [State.apply, handleUploadStatus]
    split
    · exact ⟨rfl, s, hs, hp⟩
    · split <;> exact ⟨rfl, s, hs, hp⟩
  | resume id form =>
    simp only [State.apply, handleResume]
    split
    · exact ⟨rfl, s, hs, hp⟩
    · split
      · exact ⟨rfl, s, hs, hp⟩
      · split
        · exact ⟨rfl, s, hs, hp⟩
        · split
          · exact ⟨rfl, paused_false_set _ _ _ rfl p s hs hp⟩
          · split
            · exact ⟨rfl, paused_false_set _ _ _ rfl p s hs hp⟩
            · exact ⟨rfl, paused_false_set _ _ _ rfl p s hs hp⟩
  | step i env =>
    simp only [State.apply, State.stepRun]
    split
    · exact ⟨rfl, s, hs, hp⟩
    · rename_i run hrun
      split
      · exact ⟨rfl, s, hs, hp⟩
      · rename_i session hsession
        refine ⟨rfl, ?_⟩
        dsimp only
        by_cases hq : run.session = p
        · rw [hq] at hsession
          rw [hs] at hsession
          cases hsession
          exact paused_false_set _ _ _ (by rw [uploadFileInBackground_paused]; exact hp) p s hs hp
        · exact ⟨s, by rw [List.getElem?_set_ne hq]; exact hs, hp⟩

theorem File.Read_cases (f : File) (env : Env) :
    f.Read chunkSize env = (⟨[], some ReadErr.other⟩, f)
    ∨ (f.data.length ≤ f.pos ∧ f.Read chunkSize env = (⟨[], some ReadErr.EOF⟩, f))
    ∨ (f.pos < f.data.length ∧ ∃ bs, f.Read chunkSize env = (⟨bs, none⟩, ⟨f.data, f.pos + bs.length⟩)
        ∧ 1 ≤ bs.length ∧ bs.length ≤ 100 ∧ f.pos + bs.length ≤ f.data.length
        ∧ (env = Env.ok → bs = (f.data.drop f.pos).take chunkSize
            ∧ bs.length = min 100 (f.data.length - f.pos))) := by
  have key : ∀ m, 1 ≤ m → m ≤ 100 →
      (f.data.length ≤ f.pos ∧ f.readN m = (⟨[], some ReadErr.EOF⟩, f))
      ∨ (f.pos < f.data.length ∧ ∃ bs, f.readN m = (⟨bs, none⟩, ⟨f.data, f.pos + bs.length⟩)
        ∧ 1 ≤ bs.length ∧ bs.length ≤ 100 ∧ f.pos + bs.length ≤ f.data.length
        ∧ bs = (f.data.drop f.pos).take m ∧ bs.length = min m (f.data.length - f.pos)) := by
    intro m h1 h2
    unfold File.readN
    by_cases h : f.data.length ≤ f.pos
    · left; simp [h]
    · right
      refine ⟨by omega, (f.data.drop f.pos).take m, by simp [h], ?_, ?_, ?_, rfl, ?_⟩ <;>
        simp [List.length_take, List.length_drop] <;> omega
  cases env with
  | fail => left; rfl
  | ok =>
    right
    rcases key chunkSize (by decide) (by decide) with h | ⟨h, bs, hb, h1, h2, h3, h4, h5⟩
    · left; exact h
    · right; exact ⟨h, bs, hb, h1, h2, h3, fun _ => ⟨h4, by simpa [chunkSize] using h5⟩⟩
  | short k =>
    right
    rcases key (min chunkSize (k + 1)) (by simp [chunkSize]) (by simp [chunkSize])
      with h | ⟨h, bs, hb, h1, h2, h3, h4, h5⟩
    · left; exact h
    · right; exact ⟨h, bs, hb, h1, h2, h3, fun h => by cases h⟩

theorem Run.owes_mono (len u u' total : Nat) (r : Run) (h : r.owes len u total) (hu : u ≤ u') :
    r.owes len u' total := by
  unfold Run.owes at h ⊢
  split <;> simp_all <;> omega

theorem uploadFileInBackground_owes (len : Nat) (s : UploadSession) (d : Disk) (r : Run)
    (env : Env) (hlen : r.file.data.length = len)
    (hc : s.Completed = true → s.TotalChunks ≤ s.UploadedChunks)
    (hr : r.owes len s.UploadedChunks s.TotalChunks) :
    ((uploadFileInBackground s d r env).1.Completed = true →
      (uploadFileInBackground s d r env).1.TotalChunks
        ≤ (uploadFileInBackground s d r env).1.UploadedChunks)
    ∧ (uploadFileInBackground s d r env).2.2.owes len
        (uploadFileInBackground s d r env).1.UploadedChunks
        (uploadFileInBackground s d r env).1.TotalChunks := by
  obtain ⟨sess, file, pc⟩ := r
  cases pc with
  | entry =>
    simp only [uploadFileInBackground]
    split <;> simp_all [Run.owes]
  | openFile =>
    simp only [uploadFileInBackground]
    split <;> simp_all [Run.owes]
  | rearm => simp_all [uploadFileInBackground, Run.owes]
  | check =>
    simp only [uploadFileInBackground]
    split <;> simp_all [Run.owes]
  | read =>
    simp only [uploadFileInBackground]
    simp only [Run.owes] at hr
    dsimp only at hlen
    rcases File.Read_cases file env with h | ⟨hle, h⟩ | ⟨hlt, bs, h, h1, h2, h3, _⟩
    · rw [h]; simp_all [Run.owes]
    · rw [h]
      refine ⟨by simpa using hc, ?_⟩
      simp only [Run.owes]
      have : (len - file.pos) / 100 = 0 := by
        rw [Nat.div_eq_zero_iff (by decide)]
        omega
      omega
    · rw [h]
      have hne : bs.length ≠ 0 := by omega
      simp only [hne, if_false]
      refine ⟨by simpa using hc, ?_⟩
      simp only [Run.owes]
      omega
  | write buf =>
    simp only [uploadFileInBackground]
    split <;> simp_all [Run.owes]
  | count =>
    simp only [uploadFileInBackground]
    simp only [Run.owes] at hr
    split
    · simp [Run.owes]; constructor <;> omega
    · simp [Run.owes]
      constructor
      · intro h; have := hc h; omega
      · omega
  | pauseCheck =>
    simp only [uploadFileInBackground]
    simp only [Run.owes] at hr
    split <;> simp_all [Run.owes]
  | finish =>
    simp only [uploadFileInBackground]
    simp only [Run.owes] at hr
    simp [Run.owes, hr]
  | done => simp_all [uploadFileInBackground, Run.owes]

theorem getSession_single (st : State) (id id' : String) (p : Nat)
    (h : st.uploadSessions = [(id, p)]) :
    getSession st id' = if id' = id then some p else none := by
  unfold getSession
  rw [h]
  by_cases hid : id' = id
  · subst hid; simp
  · have : (id' == id) = false := by simpa using hid
    simp [List.lookup, this, hid]

theorem Consistent_init (name : String) (data : List Byte) (unixNano : Nat) :
    Consistent data.length (generateSessionID unixNano)
      (handleUpload State.init (some ⟨name, data, false⟩) unixNano).1 := by
  refine ⟨_, rfl, rfl, rfl, by simp, ?_⟩
  intro r hr
  simp only [handleUpload, State.init, Bool.false_eq_true, if_false, List.nil_append,
    List.mem_singleton] at hr
  subst hr
  simp [Run.owes, chunkSize]

theorem Consistent_apply (len : Nat) (id : String) (st : State) (e : Event)
    (he : e.sameLength len = true) (h : Consistent len id st) :
    Consistent len id (st.apply e) := by
  obtain ⟨s, hheap, hreg, htot, hc, hruns⟩ := h
  have h0 : st.heap[0]? = some s := by rw [hheap]; rfl
  cases e with
  | upload form n => simp [Event.sameLength] at he
  | status id' =>
    simp only [State.apply, handleUploadStatus]
    split
    · exact ⟨s, hheap, hreg, htot, hc, hruns⟩
    · split <;> exact ⟨s, hheap, hreg, htot, hc, hruns⟩
  | pause id' =>
    simp only [State.apply, handlePause, getSession_single st id id' 0 hreg]
    by_cases hid : id' = id
    · simp only [hid, if_true, h0]
      exact ⟨{ s with Paused := true }, by simp [State.store, hheap], hreg, htot, hc, hruns⟩
    · simp only [hid, if_false]
      exact ⟨s, hheap, hreg, htot, hc, hruns⟩
  | resume id' form =>
    simp only [State.apply, handleResume, getSession_single st id id' 0 hreg]
    by_cases hid : id' = id
    · simp only [hid, if_true, h0]
      split
      · exact ⟨s, hheap, hreg, htot, hc, hruns⟩
      · cases form with
        | none => exact ⟨{ s with Paused := false }, by simp [State.store, hheap], hreg, htot, hc, hruns⟩
        | some f =>
          dsimp only
          cases hseek : f.seekFails with
          | true =>
            simp only [File.Seek, if_true]
            exact ⟨{ s with Paused := false }, by simp [State.store, hheap], hreg, htot, hc, hruns⟩
          | false =>
            simp only [File.Seek, Bool.false_eq_true, if_false]
            refine ⟨{ s with Paused := false }, by simp [State.store, hheap], hreg, htot, hc, ?_⟩
            intro r hr
            simp only [State.store, List.mem_append, List.mem_singleton] at hr
            rcases hr with hr | hr
            · exact hruns r hr
            · subst hr
              have hl : f.data.length = len := by simpa [Event.sameLength] using he
              refine ⟨rfl, hl, ?_⟩
              simp only [Run.owes, chunkSize, htot]
              omega
    · simp only [hid, if_false]
      exact ⟨s, hheap, hreg, htot, hc, hruns⟩
  | step i env =>
    simp only [State.apply, State.stepRun]
    split
    · exact ⟨s, hheap, hreg, htot, hc, hruns⟩
    · rename_i run hrun
      have hmem : run ∈ st.runs := List.getElem?_mem hrun
      obtain ⟨hsess, hlen, howes⟩ := hruns run hmem
      simp only [hsess, h0]
      obtain ⟨hc', howes'⟩ := uploadFileInBackground_owes len s st.disk run env hlen hc howes
      obtain ⟨-, -, -, hT, -, -, hS, hD, hU⟩ := uploadFileInBackground_frame s st.disk run env
      refine ⟨(uploadFileInBackground s st.disk run env).1, by simp [hheap], hreg,
        by rw [hT]; exact htot, hc', ?_⟩
      intro r hr
      rcases List.mem_or_eq_of_mem_set hr with hr | hr
      · obtain ⟨h1, h2, h3⟩ := hruns r hr
        refine ⟨h1, h2, ?_⟩
        rw [hT]
        exact Run.owes_mono _ _ _ _ _ h3 hU
      · subst hr
        exact ⟨by rw [hS]; exact hsess, by rw [hD]; exact hlen, howes'⟩

theorem Consistent_exec (len : Nat) (id : String) (es : List Event) :
    ∀ st : State, (∀ e ∈ es, e.sameLength len = true) → Consistent len id st →
      Consistent len id (st.exec es) := by
  induction es with
  | nil => intro st _ h; exact h
  | cons e es ih =>
    intro st hall h
    have h1 := Consistent_apply len id st e (hall e (List.mem_cons_self _ _)) h
    exact ih (st.apply e) (fun e' he' => hall e' (List.mem_cons_of_mem _ he')) h1

theorem uploadFileInBackground_aligned (len : Nat) (s : UploadSession) (d : Disk) (r : Run)
    (hlen : r.file.data.length = len)
    (hb : s.UploadedChunks * 100 < len + 100)
    (hr : r.aligned len s.UploadedChunks) :
    (uploadFileInBackground s d r Env.ok).1.UploadedChunks * 100 < len + 100
    ∧ (uploadFileInBackground s d r Env.ok).2.2.aligned len
        (uploadFileInBackground s d r Env.ok).1.UploadedChunks := by
  obtain ⟨sess, file, pc⟩ := r
  cases pc with
  | entry =>
    simp only [uploadFileInBackground]
    split <;> simp_all [Run.aligned]
  | openFile => simp_all [uploadFileInBackground, Run.aligned]
  | rearm => simp_all [uploadFileInBackground, Run.aligned]
  | check =>
    simp only [uploadFileInBackground]
    split <;> simp_all [Run.aligned]
  | read =>
    simp only [uploadFileInBackground]
    simp only [Run.aligned] at hr
    dsimp only at hlen
    rcases File.Read_cases file Env.ok with h | ⟨hle, h⟩ | ⟨hlt, bs, h, h1, h2, h3, h4⟩
    · rw [h]; simp_all [Run.aligned]
    · rw [h]; simp_all [Run.aligned]
    · rw [h]
      have hne : bs.length ≠ 0 := by omega
      obtain ⟨-, h5⟩ := h4 rfl
      simp only [hne, if_false]
      refine ⟨hb, ?_⟩
      simp only [Run.aligned]
      omega
  | write buf => simp_all [uploadFileInBackground, Run.aligned]
  | count =>
    simp only [uploadFileInBackground]
    simp only [Run.aligned] at hr
    split
    · simp only [Run.aligned]
      constructor <;> omega
    · simp only [Run.aligned]
      constructor <;> omega
  | pauseCheck =>
    simp only [uploadFileInBackground]
    split <;> simp_all [Run.aligned]
  | finish => simp_all [uploadFileInBackground, Run.aligned]
  | done => simp_all [uploadFileInBackground, Run.aligned]

theorem uploadFileInBackground_done (s : UploadSession) (d : Disk) (r : Run) (env : Env)
    (h : r.pc = Pc.done) : uploadFileInBackground s d r env = (s, d, r) := by
  unfold uploadFileInBackground
  rw [h]

/-- A goroutine that has returned takes no further step. -/
theorem stepRun_done (st : State) (i : Nat) (env : Env) (r : Run)
    (hr : st.runs[i]? = some r) (h : r.pc = Pc.done) : st.stepRun i env = st := by
  unfold State.stepRun
  rw [hr]
  dsimp only
  split
  · rfl
  · rename_i session hs
    rw [uploadFileInBackground_done _ _ _ _ h]
    have h1 : st.heap.set r.session session = st.heap := by
      apply List.ext_getElem? 
      intro j
      by_cases hj : r.session = j
      · subst hj
        rw [List.getElem?_set_self (lt_of_getElem?_eq_some hs), hs]
      · rw [List.getElem?_set_ne hj]
    have h2 : st.runs.set i r = st.runs := by
      apply List.ext_getElem? 
      intro j
      by_cases hj : i = j
      · subst hj
        rw [List.getElem?_set_self (lt_of_getElem?_eq_some hr), hr]
      · rw [List.getElem?_set_ne hj]
    simp only [h1, h2]

theorem sequentialEvent_resume {src : List Byte} {st : State} {id : String}
    {form : Option FormFile} (h : sequentialEvent src st (Event.resume id form) = true) :
    ∃ f, form = some f ∧ f.data = src ∧ f.seekFails = false
      ∧ (st.idle = true
          ∨ (handleResume st id form).2 = Response.error 409 "Upload cannot be resumed") := by
  cases form with
  | none => simp [sequentialEvent] at h
  | some f =>
    simp only [sequentialEvent, Bool.and_eq_true, Bool.or_eq_true, decide_eq_true_eq,
      Bool.not_eq_true'] at h
    exact ⟨f, rfl, h.1.1, h.1.2, h.2⟩

theorem idle_last {st : State} {ds : List Run} {r : Run} (h : st.runs = ds ++ [r])
    (hi : st.idle = true) : r.pc = Pc.done := by
  unfold State.idle at hi
  rw [h, List.all_eq_true] at hi
  have := hi r (by simp)
  unfold Run.finished at this
  split at this
  · assumption
  · cases this

theorem OneAtATime_apply (src : List Byte) (id : String) (st : State) (e : Event)
    (he : sequentialEvent src st e = true) (h : OneAtATime src.length id st) :
    OneAtATime src.length id (st.apply e)
    ∧ ∀ s s', st.heap = [s] → (st.apply e).heap = [s'] →
        s.UploadedChunks ≤ s'.UploadedChunks := by
  obtain ⟨s, ds, r, hheap, hreg, htot, hb, hruns, hds, hsess, hlen, hal⟩ := h
  have h0 : st.heap[0]? = some s := by rw [hheap]; rfl
  have same : OneAtATime src.length id st
      ∧ ∀ s s', st.heap = [s] → st.heap = [s'] → s.UploadedChunks ≤ s'.UploadedChunks :=
    ⟨⟨s, ds, r, hheap, hreg, htot, hb, hruns, hds, hsess, hlen, hal⟩, fun a b ha hb => by
      rw [ha] at hb; cases hb; exact Nat.le_refl _⟩
  cases e with
  | upload form n => simp [sequentialEvent] at he
  | status id' =>
    simp only [State.apply, handleUploadStatus]
    split
    · exact same
    · split <;> exact same
  | pause id' =>
    simp only [State.apply, handlePause, getSession_single st id id' 0 hreg]
    by_cases hid : id' = id
    · simp only [hid, if_true, h0]
      refine ⟨⟨{ s with Paused := true }, ds, r, by simp [State.store, hheap], hreg, htot, hb,
        hruns, hds, hsess, hlen, hal⟩, ?_⟩
      intro a b ha hb
      rw [hheap] at ha
      simp only [State.store, hheap, List.set_cons_zero] at hb
      cases ha; cases hb
      exact Nat.le_refl _
    · simp only [hid, if_false]
      exact same
  | resume id' form =>
    obtain ⟨f, rfl, hdata, hseek, hidle⟩ := sequentialEvent_resume he
    by_cases hconf : (handleResume st id' (some f)).2
        = Response.error 409 "Upload cannot be resumed"
    · have hsess' : st.session id' = some s ∨ st.session id' = none := by
        unfold State.session
        rw [getSession_single st id id' 0 hreg]
        by_cases hid : id' = id
        · left; simp [hid, h0]
        · right; simp [hid]
      have hst : (handleResume st id' (some f)).1 = st := by
        unfold handleResume at hconf ⊢
        rw [getSession_single st id id' 0 hreg] at hconf ⊢
        by_cases hid : id' = id
        · simp only [hid, if_true, h0] at hconf ⊢
          split
          · rfl
          · rename_i hc
            simp only [hc, if_false, File.Seek, hseek] at hconf
            simp at hconf
        · simp only [hid, if_false]
      simp only [State.apply, hst]
      exact same
    · have hdone : r.pc = Pc.done := by
        rcases hidle with hi | hi
        · exact idle_last hruns hi
        · exact absurd hi hconf
      simp only [State.apply, handleResume, getSession_single st id id' 0 hreg]
      by_cases hid : id' = id
      · simp only [hid, if_true, h0]
        split
        · exact same
        · simp only [File.Seek, hseek, Bool.false_eq_true, if_false]
          refine ⟨⟨{ s with Paused := false }, ds ++ [r],
            ⟨0, ⟨f.data, s.UploadedChunks * chunkSize⟩, Pc.entry⟩,
            by simp [State.store, hheap], hreg,
            htot, hb, by simp [State.store, hruns], ?_, rfl, by rw [← hdata], ?_⟩, ?_⟩
          · intro d hd
            simp only [List.mem_append, List.mem_singleton] at hd
            rcases hd with hd | hd
            · exact hds d hd
            · rw [hd]; exact hdone
          · simp [Run.aligned, chunkSize]
          · intro a b ha hb
            rw [hheap] at ha
            simp only [State.store, hheap, List.set_cons_zero] at hb
            cases ha; cases hb
            exact Nat.le_refl _
      · simp only [hid, if_false]
        exact same
  | step i env =>
    have henv : env = Env.ok := by simpa [sequentialEvent] using he
    subst henv
    simp only [State.apply]
    rcases Nat.lt_trichotomy i ds.length with hi | hi | hi
    · -- a goroutine that has returned
      have hget : st.runs[i]? = some ds[i] := by
        rw [hruns, List.getElem?_append_left hi, List.getElem?_eq_getElem hi]
      rw [stepRun_done st i Env.ok _ hget (hds _ (List.getElem_mem _))]
      exact same
    · -- the last goroutine
      have hget : st.runs[i]? = some r := by
        rw [hruns, hi, List.getElem?_concat_length]
      obtain ⟨hb', hal'⟩ := uploadFileInBackground_aligned src.length s st.disk r hlen hb hal
      obtain ⟨-, -, -, hT, -, -, hS, hD, hU⟩ := uploadFileInBackground_frame s st.disk r Env.ok
      simp only [State.stepRun, hget, hsess, h0]
      refine ⟨⟨(uploadFileInBackground s st.disk r Env.ok).1, ds,
        (uploadFileInBackground s st.disk r Env.ok).2.2, by simp [hheap], hreg,
        by rw [hT]; exact htot, hb', ?_, hds, by rw [hS]; exact hsess, by rw [hD]; exact hlen,
        hal'⟩, ?_⟩
      · simp [hruns, hi]
      · intro a b ha hb
        rw [hheap] at ha
        simp only [hheap, List.set_cons_zero] at hb
        cases ha; cases hb
        exact hU
    · have hget : st.runs[i]? = none := by
        rw [hruns]
        apply List.getElem?_eq_none
        simp
        omega
      simp only [State.stepRun, hget]
      exact same

theorem OneAtATime_init (name : String) (data : List Byte) (unixNano : Nat) :
    OneAtATime data.length (generateSessionID unixNano)
      (handleUpload State.init (some ⟨name, data, false⟩) unixNano).1 := by
  refine ⟨_, [], ⟨0, ⟨data, 0⟩, Pc.entry⟩, rfl, rfl, rfl, by simp, rfl, by simp, rfl, rfl, ?_⟩
  simp [Run.aligned]

theorem sequential_append (src : List Byte) (es : List Event) (e : Event) :
    ∀ st : State, sequential src st (es ++ [e]) = true →
      sequential src st es = true ∧ sequentialEvent src (st.exec es) e = true := by
  induction es with
  | nil =>
    intro st h
    simp only [List.nil_append, sequential, Bool.and_true] at h
    exact ⟨rfl, h⟩
  | cons a es ih =>
    intro st h
    simp only [List.cons_append, sequential, Bool.and_eq_true] at h
    obtain ⟨h1, h2⟩ := ih (st.apply a) h.2
    exact ⟨by simp [sequential, h.1, h1], by simpa [State.exec] using h2⟩

theorem OneAtATime_exec (src : List Byte) (id : String) (es : List Event) :
    ∀ st : State, sequential src st es = true → OneAtATime src.length id st →
      OneAtATime src.length id (st.exec es) := by
  induction es with
  | nil => intro st _ h; exact h
  | cons e es ih =>
    intro st hall h
    simp only [sequential, Bool.and_eq_true] at hall
    exact ih (st.apply e) hall.2 (OneAtATime_apply src id st e hall.1 h).1

/-- A step of the last goroutine when it works on the last session object. -/
theorem stepRun_last (H : List UploadSession) (reg : List (String × Nat)) (D : Disk)
    (R : List Run) (s : UploadSession) (r : Run) (env : Env) (hr : r.session = H.length) :
    (State.mk (H ++ [s]) reg D (R ++ [r])).stepRun R.length env
      = State.mk (H ++ [(uploadFileInBackground s D r env).1]) reg
          (uploadFileInBackground s D r env).2.1
          (R ++ [(uploadFileInBackground s D r env).2.2]) := by
  have h1 : (R ++ [r])[R.length]? = some r := List.getElem?_concat_length R r
  have h2 : (H ++ [s])[H.length]? = some s := List.getElem?_concat_length H s
  unfold State.stepRun
  dsimp only
  rw [h1]
  dsimp only
  rw [hr, h2]
  dsimp only
  rw [List.set_append_right _ _ (Nat.le_refl _), List.set_append_right _ _ (Nat.le_refl _)]
  rw [Nat.sub_self, Nat.sub_self]
  rfl

theorem exec_replicate_add (st : State) (e : Event) (a b : Nat) :
    st.exec (List.replicate (a + b) e)
      = (st.exec (List.replicate a e)).exec (List.replicate b e) := by
  unfold State.exec
  rw [List.replicate_add, List.foldl_append]

theorem loop_prologue (H : List UploadSession) (reg : List (String × Nat)) (D : Disk)
    (R : List Run) (s : UploadSession) (f : File) (hc : s.Completed = false) :
    (State.mk (H ++ [s]) reg D (R ++ [⟨H.length, f, Pc.entry⟩])).exec
        (List.replicate 3 (Event.step R.length Env.ok))
      = State.mk (H ++ [s]) reg (D.openAppend s.FilePath) (R ++ [⟨H.length, f, Pc.check⟩]) := by
  simp only [List.replicate, State.exec, List.foldl, State.apply]
  rw [stepRun_last _ _ _ _ _ _ _ rfl]
  simp only [uploadFileInBackground, hc, Bool.false_eq_true, if_false]
  rw [stepRun_last _ _ _ _ _ _ _ rfl]
  simp only [uploadFileInBackground]
  rw [stepRun_last _ _ _ _ _ _ _ rfl]
  simp only [uploadFileInBackground]
  have hs : ({ s with Completed := false } : UploadSession) = s := by
    cases s
    simp_all
  rw [hs]

theorem loop_iteration (H : List UploadSession) (reg : List (String × Nat)) (D : Disk)
    (R : List Run) (s : UploadSession) (data : List Byte) (pos : Nat)
    (hpos : pos < data.length) (hp : s.Paused = false) (ht : s.Terminated = false) :
    (State.mk (H ++ [s]) reg D (R ++ [⟨H.length, ⟨data, pos⟩, Pc.check⟩])).exec
        (List.replicate 5 (Event.step R.length Env.ok))
      = State.mk (H ++ [countChunk s]) reg
          (D.append s.FilePath ((data.drop pos).take chunkSize))
          (R ++ [⟨H.length, ⟨data, min (pos + chunkSize) data.length⟩, Pc.check⟩]) := by
  have hread : (File.mk data pos).Read chunkSize Env.ok
      = (⟨(data.drop pos).take chunkSize, none⟩,
          ⟨data, pos + ((data.drop pos).take chunkSize).length⟩) := by
    simp [File.Read, File.readN, not_le.mpr hpos]
  have hbl : ((data.drop pos).take chunkSize).length = min 100 (data.length - pos) := by
    simp [List.length_take, List.length_drop, chunkSize]
  generalize hbs : (data.drop pos).take chunkSize = bs at hread hbl
  have hne : bs.length ≠ 0 := by omega
  have hpc : (countChunk s).Paused = false := by
    simp only [countChunk, uploadFileInBackground]
    split <;> simp [hp]
  have hcond : (s.Paused || s.Terminated) = false := by simp [hp, ht]
  simp only [List.replicate, State.exec, List.foldl, State.apply]
  rw [stepRun_last _ _ _ _ _ _ _ rfl]
  simp only [uploadFileInBackground, hcond, Bool.false_eq_true, if_false]
  rw [stepRun_last _ _ _ _ _ _ _ rfl]
  simp only [uploadFileInBackground, hread, hne, if_false]
  rw [stepRun_last _ _ _ _ _ _ _ rfl]
  simp only [uploadFileInBackground]
  rw [stepRun_last _ _ _ _ _ _ _ rfl]
  have hcount : ∀ (d : Disk) (r : Run), r.pc = Pc.count →
      uploadFileInBackground s d r Env.ok = (countChunk s, d, { r with pc := Pc.pauseCheck }) := by
    intro d r hr
    simp only [uploadFileInBackground, hr, countChunk]
  rw [hcount _ _ rfl]
  rw [stepRun_last _ _ _ _ _ _ _ rfl]
  simp only [uploadFileInBackground, hpc, Bool.false_eq_true, if_false]
  have hmin : pos + bs.length = min (pos + chunkSize) data.length := by
    simp only [chunkSize]; omega
  rw [hmin]

theorem loop_epilogue (H : List UploadSession) (reg : List (String × Nat)) (D : Disk)
    (R : List Run) (s : UploadSession) (data : List Byte) (pos : Nat)
    (hpos : data.length ≤ pos) (hp : s.Paused = false) (ht : s.Terminated = false) :
    (State.mk (H ++ [s]) reg D (R ++ [⟨H.length, ⟨data, pos⟩, Pc.check⟩])).exec
        (List.replicate 3 (Event.step R.length Env.ok))
      = State.mk (H ++ [{ s with Completed := true }]) reg D
          (R ++ [⟨H.length, ⟨data, pos⟩, Pc.done⟩]) := by
  have hcond : (s.Paused || s.Terminated) = false := by simp [hp, ht]
  simp only [List.replicate, State.exec, List.foldl, State.apply]
  rw [stepRun_last _ _ _ _ _ _ _ rfl]
  simp only [uploadFileInBackground, hcond, Bool.false_eq_true, if_false]
  rw [stepRun_last _ _ _ _ _ _ _ rfl]
  simp only [uploadFileInBackground, File.Read, File.readN, hpos, if_true]
  rw [stepRun_last _ _ _ _ _ _ _ rfl]
  simp only [uploadFileInBackground]

theorem countChunk_spec (s : UploadSession) :
    (countChunk s).UploadedChunks = s.UploadedChunks + 1
    ∧ (countChunk s).TotalChunks = s.TotalChunks
    ∧ (countChunk s).Paused = s.Paused
    ∧ (countChunk s).Terminated = s.Terminated
    ∧ (countChunk s).FilePath = s.FilePath
    ∧ (s.TotalChunks ≤ s.UploadedChunks + 1 → (countChunk s).Completed = true)
    ∧ (s.Completed = true → (countChunk s).Completed = true) := by
  simp only [countChunk, uploadFileInBackground]
  split
  · simp
  · rename_i h
    simp only [ge_iff_le, not_le] at h
    refine ⟨rfl, rfl, rfl, rfl, rfl, ?_, fun h => h⟩
    intro h'
    omega

theorem loop_chunks (H : List UploadSession) (reg : List (String × Nat)) (R : List Run)
    (data : List Byte) (s : UploadSession) (D : Disk)
    (hp : s.Paused = false) (ht : s.Terminated = false) (k : Nat) :
    k * 100 < data.length + 100 →
    ∃ s' D',
      (State.mk (H ++ [s]) reg D (R ++ [⟨H.length, ⟨data, 0⟩, Pc.check⟩])).exec
          (List.replicate (5 * k) (Event.step R.length Env.ok))
        = State.mk (H ++ [s']) reg D'
            (R ++ [⟨H.length, ⟨data, min (k * 100) data.length⟩, Pc.check⟩])
      ∧ s'.UploadedChunks = s.UploadedChunks + k
      ∧ s'.TotalChunks = s.TotalChunks
      ∧ s'.Paused = false ∧ s'.Terminated = false
      ∧ (1 ≤ k → s.TotalChunks ≤ s.UploadedChunks + k → s'.Completed = true) := by
  induction k with
  | zero =>
    intro _
    exact ⟨s, D, by simp [State.exec], rfl, rfl, hp, ht, by omega⟩
  | succ k ih =>
    intro hk
    obtain ⟨s', D', hex, hu, htot, hp', ht', hc'⟩ := ih (by omega)
    have hpos : min (k * 100) data.length < data.length := by omega
    have hmul : 5 * (k + 1) = 5 * k + 5 := by ring
    rw [hmul, exec_replicate_add, hex, loop_iteration H reg D' R s' data _ hpos hp' ht']
    obtain ⟨c1, c2, c3, c4, -, c6, c7⟩ := countChunk_spec s'
    refine ⟨countChunk s',
      D'.append s'.FilePath ((data.drop (min (k * 100) data.length)).take chunkSize),
      ?_, by omega, by rw [c2, htot], by rw [c3, hp'], by rw [c4, ht'], ?_⟩
    · have : min (min (k * 100) data.length + chunkSize) data.length
          = min ((k + 1) * 100) data.length := by
        simp only [chunkSize]; omega
      rw [this]
    · intro _ hle
      apply c6
      omega

theorem handleUpload_ok (st : State) (name : String) (data : List Byte) (unixNano : Nat) :
    handleUpload st (some ⟨name, data, false⟩) unixNano
      = (State.mk (st.heap ++ [freshSession name data.length])
          (st.register (generateSessionID unixNano) st.heap.length) st.disk
          (st.runs ++ [⟨st.heap.length, ⟨data, 0⟩, Pc.entry⟩]),
         Response.sessionID (generateSessionID unixNano)) := by
  simp [handleUpload, freshSession]

/-- The registry after one event. -/
theorem registry_apply (st : State) (e : Event) :
    (st.apply e).uploadSessions = st.uploadSessions
    ∨ ∃ f unixNano, e = Event.upload (some f) unixNano ∧ f.seekFails = false
        ∧ (st.apply e).uploadSessions
            = st.register (generateSessionID unixNano) st.heap.length := by
  cases e with
  | upload form n =>
    cases form with
    | none => left; rfl
    | some f =>
      cases hf : f.seekFails with
      | true => left; simp [State.apply, handleUpload, hf]
      | false => right; exact ⟨f, n, rfl, hf, by simp [State.apply, handleUpload, hf]⟩
  | pause id =>
    left
    simp only [State.apply, handlePause]
    split
    · rfl
    · split <;> rfl
  | resume id form =>
    left
    simp only [State.apply, handleResume]
    split
    · rfl
    · split
      · rfl
      · split
        · rfl
        · split
          · rfl
          · split <;> rfl
  | status id =>
    left
    simp only [State.apply, handleUploadStatus]
    split
    · rfl
    · split <;> rfl
  | step i env =>
    left
    simp only [State.apply, State.stepRun]
    split
    · rfl
    · split <;> rfl

theorem lookup_register_self (st : State) (id : String) (p : Nat) :
    (st.register id p).lookup id = some p := by
  simp [State.register]

theorem lookup_filter_ne (l : List (String × Nat)) (id id' : String) (h : id' ≠ id) :
    (l.filter (fun e => e.1 ≠ id)).lookup id' = l.lookup id' := by
  induction l with
  | nil => rfl
  | cons a l ih =>
    obtain ⟨k, v⟩ := a
    by_cases hk : k = id
    · have hb : (id' == k) = false := by rw [hk]; simpa using h
      have hf : decide ((k, v).1 ≠ id) = false := by simp [hk]
      rw [List.filter_cons_of_neg (by simp [hk]), ih]
      simp only [List.lookup, hb]
    · rw [List.filter_cons_of_pos (by simp [hk])]
      by_cases hk2 : id' = k
      · subst hk2
        simp only [List.lookup, beq_self_eq_true]
      · have hb : (id' == k) = false := by simpa using hk2
        simp only [List.lookup, hb]
        exact ih

theorem lookup_register_ne (st : State) (id id' : String) (p : Nat) (h : id' ≠ id) :
    (st.register id p).lookup id' = st.uploadSessions.lookup id' := by
  have hb : (id' == id) = false := by simpa using h
  simp only [State.register, List.lookup, hb]
  exact lookup_filter_ne _ _ _ h

theorem bytes_openAppend (d : Disk) (path path' : String) :
    (d.openAppend path).bytes path' = d.bytes path' := by
  unfold Disk.openAppend
  cases h : d.lookup path with
  | some v => rfl
  | none =>
    simp only [Disk.bytes, Disk.content]
    by_cases hp : path' = path
    · subst hp
      have : List.lookup path' (d ++ [(path', [])]) = some [] := by
        clear * - h
        induction d with
        | nil => simp [List.lookup]
        | cons a l ih =>
          obtain ⟨k, v⟩ := a
          by_cases hk : path' = k
          · subst hk; simp [List.lookup] at h
          · have hb : (path' == k) = false := by simpa using hk
            simp only [List.lookup, hb] at h
            simp only [List.cons_append, List.lookup, hb]
            exact ih h
      rw [this, h]
      rfl
    · have : List.lookup path' (d ++ [(path, [])]) = List.lookup path' d := by
        have hb : (path' == path) = false := by simpa using hp
        clear h
        induction d with
        | nil => simp [List.lookup, hb]
        | cons a l ih =>
          obtain ⟨k, v⟩ := a
          by_cases hk : path' = k
          · subst hk; simp [List.lookup]
          · have hb2 : (path' == k) = false := by simpa using hk
            simp only [List.cons_append, List.lookup, hb2]
            exact ih
      rw [this]

theorem uploadFileInBackground_terminated (s : UploadSession) (d : Disk) (r : Run) (env : Env) :
    (uploadFileInBackground s d r env).1.Terminated = s.Terminated :=
  (uploadFileInBackground_frame s d r env).2.2.2.2.2.1

/-- No event sets `Terminated` in any session object. -/
theorem terminated_apply (st : State) (e : Event)
    (h : ∀ s ∈ st.heap, s.Terminated = false) :
    ∀ s ∈ (st.apply e).heap, s.Terminated = false := by
  have hset : ∀ (p : Nat) (t : UploadSession), t.Terminated = false →
      ∀ s ∈ st.heap.set p t, s.Terminated = false := by
    intro p t ht s hs
    rcases List.mem_or_eq_of_mem_set hs with h1 | h1
    · exact h s h1
    · rw [h1]; exact ht
  cases e with
  | upload form n =>
    cases form with
    | none => exact h
    | some f =>
      cases hf : f.seekFails with
      | true => simpa [State.apply, handleUpload, hf] using h
      | false =>
        intro s hs
        simp only [State.apply, handleUpload, hf, Bool.false_eq_true, if_false,
          List.mem_append, List.mem_singleton] at hs
        rcases hs with hs | hs
        · exact h s hs
        · rw [hs]
  | pause id =>
    simp only [State.apply, handlePause]
    split
    · exact h
    · split
      · exact h
      · rename_i session hs
        exact hset _ _ (h session (List.getElem?_mem hs))
  | resume id form =>
    simp only [State.apply, handleResume]
    split
    · exact h
    · split
      · exact h
      · rename_i session hs
        have ht := h session (List.getElem?_mem hs)
        split
        · exact h
        · split
          · exact hset _ _ ht
          · split
            · exact hset _ _ ht
            · exact hset _ _ ht
  | status id =>
    simp only [State.apply, handleUploadStatus]
    split
    · exact h
    · split <;> exact h
  | step i env =>
    simp only [State.apply, State.stepRun]
    split
    · exact h
    · split
      · exact h
      · rename_i run _ session hs
        apply hset
        rw [uploadFileInBackground_terminated]
        exact h session (List.getElem?_mem hs)

theorem uploadFileInBackground_rearm (s : UploadSession) (d : Disk) (r : Run) (env : Env)
    (h : (r.pc = Pc.openFile ∨ r.pc = Pc.rearm) → s.Completed = false) :
    (((uploadFileInBackground s d r env).2.2.pc = Pc.openFile
        ∨ (uploadFileInBackground s d r env).2.2.pc = Pc.rearm) →
      (uploadFileInBackground s d r env).1.Completed = false)
    ∧ (s.Completed = true → (uploadFileInBackground s d r env).1.Completed = true) := by
  obtain ⟨sess, file, pc⟩ := r
  cases pc with
  | entry =>
    simp only [uploadFileInBackground]
    split <;> simp_all
  | openFile =>
    simp only [uploadFileInBackground]
    split <;> simp_all
  | rearm => simp_all [uploadFileInBackground]
  | check =>
    simp only [uploadFileInBackground]
    split <;> simp_all
  | read =>
    simp only [uploadFileInBackground]
    split
    · simp
    · simp
    · split <;> simp
  | write buf =>
    simp only [uploadFileInBackground]
    split <;> simp
  | count =>
    simp only [uploadFileInBackground]
    split <;> simp
  | pauseCheck =>
    simp only [uploadFileInBackground]
    split <;> simp
  | finish => simp [uploadFileInBackground]
  | done => simp [uploadFileInBackground]

theorem Rearmable_apply (id : String) (st : State) (e : Event)
    (he : exclusiveEvent st e = true) (h : Rearmable id st) :
    Rearmable id (st.apply e)
    ∧ ∀ s s', st.heap = [s] → (st.apply e).heap = [s'] →
        s.Completed = true → s'.Completed = true := by
  obtain ⟨s, ds, r, hheap, hreg, hruns, hds, hsess, hpc⟩ := h
  have h0 : st.heap[0]? = some s := by rw [hheap]; rfl
  have same : Rearmable id st
      ∧ ∀ s s', st.heap = [s] → st.heap = [s'] → s.Completed = true → s'.Completed = true :=
    ⟨⟨s, ds, r, hheap, hreg, hruns, hds, hsess, hpc⟩, fun a b ha hb => by
      rw [ha] at hb; cases hb; exact fun hcomp => hcomp⟩
  have flag : ∀ b : Bool, Rearmable id (st.store 0 { s with Paused := b })
      ∧ ∀ a c, st.heap = [a] → (st.store 0 { s with Paused := b }).heap = [c] →
          a.Completed = true → c.Completed = true := by
    intro b
    refine ⟨⟨{ s with Paused := b }, ds, r, by simp [State.store, hheap], hreg, hruns, hds,
      hsess, hpc⟩, ?_⟩
    intro a c ha hc
    rw [hheap] at ha
    simp only [State.store, hheap, List.set_cons_zero] at hc
    cases ha; cases hc
    exact fun hcomp => hcomp
  cases e with
  | upload form n => simp [exclusiveEvent] at he
  | status id' =>
    simp only [State.apply, handleUploadStatus]
    split
    · exact same
    · split <;> exact same
  | pause id' =>
    simp only [State.apply, handlePause, getSession_single st id id' 0 hreg]
    by_cases hid : id' = id
    · simp only [hid, if_true, h0]
      exact flag true
    · simp only [hid, if_false]
      exact same
  | resume id' form =>
    simp only [exclusiveEvent, Bool.or_eq_true, decide_eq_true_eq] at he
    simp only [State.apply, handleResume, getSession_single st id id' 0 hreg] at he ⊢
    by_cases hid : id' = id
    · simp only [hid, if_true, h0] at he ⊢
      split
      · exact same
      · rename_i hc
        simp only [hc, if_false] at he
        cases form with
        | none => exact flag false
        | some f =>
          dsimp only at he ⊢
          cases hseek : f.seekFails with
          | true =>
            simp only [File.Seek, if_true]
            exact flag false
          | false =>
            simp only [File.Seek, hseek, Bool.false_eq_true, if_false] at he ⊢
            have hdone : r.pc = Pc.done := by
              rcases he with hi | hi
              · exact idle_last hruns hi
              · exfalso
                have := congrArg List.length hi
                simp [State.store] at this
            refine ⟨⟨{ s with Paused := false }, ds ++ [r],
              ⟨0, ⟨f.data, s.UploadedChunks * chunkSize⟩, Pc.entry⟩,
              by simp [State.store, hheap], hreg, by simp [State.store, hruns], ?_, rfl,
              by simp⟩, ?_⟩
            · intro d hd
              simp only [List.mem_append, List.mem_singleton] at hd
              rcases hd with hd | hd
              · exact hds d hd
              · rw [hd]; exact hdone
            · intro a c ha hc
              rw [hheap] at ha
              simp only [State.store, hheap, List.set_cons_zero] at hc
              cases ha; cases hc
              exact fun hcomp => hcomp
    · simp only [hid, if_false]
      exact same
  | step i env =>
    simp only [State.apply]
    rcases Nat.lt_trichotomy i ds.length with hi | hi | hi
    · have hget : st.runs[i]? = some ds[i] := by
        rw [hruns, List.getElem?_append_left hi, List.getElem?_eq_getElem hi]
      rw [stepRun_done st i env _ hget (hds _ (List.getElem_mem _))]
      exact same
    · have hget : st.runs[i]? = some r := by
        rw [hruns, hi, List.getElem?_concat_length]
      obtain ⟨hpc', hkeep⟩ := uploadFileInBackground_rearm s st.disk r env hpc
      obtain ⟨-, -, -, -, -, -, hS, -, -⟩ := uploadFileInBackground_frame s st.disk r env
      simp only [State.stepRun, hget, hsess, h0]
      refine ⟨⟨(uploadFileInBackground s st.disk r env).1, ds,
        (uploadFileInBackground s st.disk r env).2.2, by simp [hheap], hreg, ?_, hds,
        by rw [hS]; exact hsess, hpc'⟩, ?_⟩
      · simp [hruns, hi]
      · intro a c ha hc
        rw [hheap] at ha
        simp only [hheap, List.set_cons_zero] at hc
        cases ha; cases hc
        exact hkeep
    · have hget : st.runs[i]? = none := by
        rw [hruns]
        apply List.getElem?_eq_none
        simp
        omega
      simp only [State.stepRun, hget]
      exact same

theorem Rearmable_init (name : String) (data : List Byte) (unixNano : Nat) :
    Rearmable (generateSessionID unixNano)
      (handleUpload State.init (some ⟨name, data, false⟩) unixNano).1 := by
  refine ⟨_, [], ⟨0, ⟨data, 0⟩, Pc.entry⟩, rfl, rfl, rfl, by simp, rfl, by simp⟩

theorem exec_append (st : State) (es es' : List Event) :
    st.exec (es ++ es') = (st.exec es).exec es' := by
  unfold State.exec
  rw [List.foldl_append]

theorem exclusive_append (es es' : List Event) :
    ∀ st : State, exclusive st (es ++ es') = true →
      exclusive st es = true ∧ exclusive (st.exec es) es' = true := by
  induction es with
  | nil => intro st h; exact ⟨rfl, h⟩
  | cons a es ih =>
    intro st h
    simp only [List.cons_append, exclusive, Bool.and_eq_true] at h
    obtain ⟨h1, h2⟩ := ih (st.apply a) h.2
    exact ⟨by simp [exclusive, h.1, h1], by simpa [State.exec] using h2⟩

theorem Rearmable_exec (id : String) (es : List Event) :
    ∀ st : State, exclusive st es = true → Rearmable id st →
      Rearmable id (st.exec es)
      ∧ ∀ s s', st.heap = [s] → (st.exec es).heap = [s'] →
          s.Completed = true → s'.Completed = true := by
  induction es with
  | nil =>
    intro st _ h
    exact ⟨h, fun a b ha hb => by
      simp only [State.exec, List.foldl] at hb
      rw [ha] at hb; cases hb; exact fun hcomp => hcomp⟩
  | cons e es ih =>
    intro st hall h
    simp only [exclusive, Bool.and_eq_true] at hall
    obtain ⟨h1, hk1⟩ := Rearmable_apply id st e hall.1 h
    obtain ⟨h2, hk2⟩ := ih (st.apply e) hall.2 h1
    refine ⟨by simpa [State.exec] using h2, ?_⟩
    intro a c ha hc hcomp
    obtain ⟨m, -, -, hm, -⟩ := h1
    have hc' : ((st.apply e).exec es).heap = [c] := by simpa [State.exec] using hc
    exact hk2 m c hm hc' (hk1 a m ha hm hcomp)

theorem bytes_nil (path : String) : Disk.bytes [] path = [] := rfl

theorem bytes_single (path : String) (c : List Byte) : Disk.bytes [(path, c)] path = c := by
  simp [Disk.bytes, Disk.content, List.lookup]

theorem openAppend_only (d : Disk) (path : String) (h : d.only path) :
    (d.openAppend path).only path ∧ d.openAppend path ≠ []
    ∧ (d.openAppend path).bytes path = d.bytes path := by
  rcases h with rfl | ⟨c, rfl⟩
  · refine ⟨Or.inr ⟨[], rfl⟩, by simp [Disk.openAppend], ?_⟩
    simp [Disk.openAppend, Disk.bytes, Disk.content, List.lookup]
  · have : Disk.openAppend [(path, c)] path = [(path, c)] := by
      simp [Disk.openAppend, List.lookup]
    rw [this]
    exact ⟨Or.inr ⟨c, rfl⟩, by simp, rfl⟩

theorem append_only (d : Disk) (path : String) (buf : List Byte) (h : d.only path)
    (hne : d ≠ []) :
    (d.append path buf).only path ∧ d.append path buf ≠ []
    ∧ (d.append path buf).bytes path = d.bytes path ++ buf := by
  rcases h with rfl | ⟨c, rfl⟩
  · exact absurd rfl hne
  · have : Disk.append [(path, c)] path buf = [(path, c ++ buf)] := by
      simp [Disk.append]
    rw [this, bytes_single, bytes_single]
    exact ⟨Or.inr ⟨_, rfl⟩, by simp, rfl⟩

theorem uploadFileInBackground_synced (src : List Byte) (path : String) (s : UploadSession)
    (d : Disk) (r : Run) (hdata : r.file.data = src) (hpath : s.FilePath = path)
    (htot : s.TotalChunks = src.length / 100) (hshape : d.only path)
    (h : r.synced src path s d) :
    (uploadFileInBackground s d r Env.ok).2.1.only path
    ∧ (uploadFileInBackground s d r Env.ok).2.2.synced src path
        (uploadFileInBackground s d r Env.ok).1 (uploadFileInBackground s d r Env.ok).2.1 := by
  obtain ⟨sess, file, pc⟩ := r
  dsimp only at hdata
  cases pc with
  | entry =>
    simp only [Run.synced] at h
    simp only [uploadFileInBackground]
    split
    · rename_i hc
      exact ⟨hshape, by simp only [Run.synced]; exact ⟨h.1, fun hf => by simp [hc] at hf⟩⟩
    · rename_i hc
      have hc' : s.Completed = false := by simpa using hc
      exact ⟨hshape, by simp only [Run.synced]; exact ⟨h.1, h.2.1, h.2.2 hc', hc'⟩⟩
  | openFile =>
    simp only [Run.synced] at h
    simp only [uploadFileInBackground]
    obtain ⟨o1, o2, o3⟩ := openAppend_only d path hshape
    rw [hpath]
    refine ⟨o1, ?_⟩
    simp only [Run.synced]
    exact ⟨by rw [o3]; exact h.1, h.2.1, h.2.2.1, h.2.2.2, o2⟩
  | rearm =>
    simp only [Run.synced] at h
    simp only [uploadFileInBackground]
    refine ⟨hshape, ?_⟩
    simp only [Run.synced]
    exact ⟨h.1, h.2.1, fun _ => h.2.2.1, h.2.2.2.2⟩
  | check =>
    simp only [Run.synced] at h
    simp only [uploadFileInBackground]
    split
    · exact ⟨hshape, by simp only [Run.synced]; exact ⟨h.1, h.2.2.1⟩⟩
    · exact ⟨hshape, by simp only [Run.synced]; exact h⟩
  | read =>
    simp only [Run.synced] at h
    simp only [uploadFileInBackground]
    rcases File.Read_cases file Env.ok with hr | ⟨hle, hr⟩ | ⟨hlt, bs, hr, h1, h2, h3, h4⟩
    · rw [hr]
      exact ⟨hshape, by simp only [Run.synced]; exact ⟨h.1, h.2.2.1⟩⟩
    · rw [hr]
      exact ⟨hshape, by simp only [Run.synced]; exact ⟨h.1, h.2.2.1⟩⟩
    · rw [hr]
      have hne : bs.length ≠ 0 := by omega
      obtain ⟨h5, h6⟩ := h4 rfl
      simp only [hne, if_false]
      refine ⟨hshape, ?_⟩
      simp only [Run.synced]
      rw [hdata] at hlt h5 h6
      have hpos : file.pos = s.UploadedChunks * 100 := by
        have := h.2.1
        omega
      refine ⟨h.1, by omega, ?_, by omega, h.2.2.2⟩
      rw [h5, hpos]
      rfl
  | write buf =>
    simp only [Run.synced] at h
    simp only [uploadFileInBackground]
    obtain ⟨a1, a2, a3⟩ := append_only d path buf hshape h.2.2.2.2
    rw [hpath]
    refine ⟨a1, ?_⟩
    simp only [Run.synced]
    refine ⟨?_, h.2.1, h.2.2.2.1, a2⟩
    rw [a3, h.1, h.2.2.1, List.take_add]
  | count =>
    simp only [Run.synced] at h
    simp only [uploadFileInBackground]
    have harith : (s.UploadedChunks + 1) * 100 = s.UploadedChunks * 100 + 100 := by ring
    split
    · refine ⟨hshape, ?_⟩
      simp only [Run.synced, harith]
      exact ⟨h.1, by rw [h.2.2.1]; omega, fun hf => by simp at hf, h.2.2.2⟩
    · rename_i hlt
      refine ⟨hshape, ?_⟩
      simp only [Run.synced, harith]
      refine ⟨h.1, by rw [h.2.2.1]; omega, fun _ => ?_, h.2.2.2⟩
      simp only [ge_iff_le, not_le] at hlt
      omega
  | pauseCheck =>
    simp only [Run.synced] at h
    simp only [uploadFileInBackground]
    split
    · exact ⟨hshape, by simp only [Run.synced]; exact ⟨h.1, h.2.2.1⟩⟩
    · exact ⟨hshape, by simp only [Run.synced]; exact h⟩
  | finish =>
    simp only [Run.synced] at h
    simp only [uploadFileInBackground]
    exact ⟨hshape, by simp only [Run.synced]; exact ⟨h.1, fun hf => by simp at hf⟩⟩
  | done =>
    simp only [uploadFileInBackground]
    exact ⟨hshape, h⟩

theorem synced_flag (src : List Byte) (path : String) (s : UploadSession) (d : Disk) (r : Run)
    (b : Bool) (h : r.synced src path s d) : r.synced src path { s with Paused := b } d := by
  unfold Run.synced at h ⊢
  exact h

theorem Synced_apply (src : List Byte) (id path : String) (st : State) (e : Event)
    (he : sequentialEvent src st e = true) (h : Synced src id path st) :
    Synced src id path (st.apply e) := by
  obtain ⟨s, ds, r, hheap, hreg, hpath, htot, hruns, hds, hsess, hdata, hshape, hsync⟩ := h
  have h0 : st.heap[0]? = some s := by rw [hheap]; rfl
  have same : Synced src id path st :=
    ⟨s, ds, r, hheap, hreg, hpath, htot, hruns, hds, hsess, hdata, hshape, hsync⟩
  cases e with
  | upload form n => simp [sequentialEvent] at he
  | status id' =>
    simp only [State.apply, handleUploadStatus]
    split
    · exact same
    · split <;> exact same
  | pause id' =>
    simp only [State.apply, handlePause, getSession_single st id id' 0 hreg]
    by_cases hid : id' = id
    · simp only [hid, if_true, h0]
      exact ⟨{ s with Paused := true }, ds, r, by simp [State.store, hheap], hreg, hpath, htot,
        hruns, hds, hsess, hdata, hshape, synced_flag _ _ _ _ _ _ hsync⟩
    · simp only [hid, if_false]
      exact same
  | resume id' form =>
    obtain ⟨f, rfl, hfdata, hseek, hidle⟩ := sequentialEvent_resume he
    by_cases hconf : (handleResume st id' (some f)).2
        = Response.error 409 "Upload cannot be resumed"
    · have hst : (handleResume st id' (some f)).1 = st := by
        unfold handleResume at hconf ⊢
        rw [getSession_single st id id' 0 hreg] at hconf ⊢
        by_cases hid : id' = id
        · simp only [hid, if_true, h0] at hconf ⊢
          split
          · rfl
          · rename_i hc
            simp only [hc, if_false, File.Seek, hseek] at hconf
            simp at hconf
        · simp only [hid, if_false]
      simp only [State.apply, hst]
      exact same
    · have hdone : r.pc = Pc.done := by
        rcases hidle with hi | hi
        · exact idle_last hruns hi
        · exact absurd hi hconf
      simp only [State.apply, handleResume, getSession_single st id id' 0 hreg]
      by_cases hid : id' = id
      · simp only [hid, if_true, h0]
        split
        · exact same
        · simp only [File.Seek, hseek, Bool.false_eq_true, if_false]
          refine ⟨{ s with Paused := false }, ds ++ [r],
            ⟨0, ⟨f.data, s.UploadedChunks * chunkSize⟩, Pc.entry⟩,
            by simp [State.store, hheap], hreg, hpath, htot, by simp [State.store, hruns], ?_,
            rfl, hfdata, hshape, ?_⟩
          · intro d hd
            simp only [List.mem_append, List.mem_singleton] at hd
            rcases hd with hd | hd
            · exact hds d hd
            · rw [hd]; exact hdone
          · obtain ⟨sess, file, pc⟩ := r
            dsimp only at hdone
            subst hdone
            simp only [Run.synced] at hsync
            simp only [Run.synced, State.store, chunkSize]
            exact ⟨hsync.1, trivial, hsync.2⟩
      · simp only [hid, if_false]
        exact same
  | step i env =>
    have henv : env = Env.ok := by simpa [sequentialEvent] using he
    subst henv
    simp only [State.apply]
    rcases Nat.lt_trichotomy i ds.length with hi | hi | hi
    · have hget : st.runs[i]? = some ds[i] := by
        rw [hruns, List.getElem?_append_left hi, List.getElem?_eq_getElem hi]
      rw [stepRun_done st i Env.ok _ hget (hds _ (List.getElem_mem _))]
      exact same
    · have hget : st.runs[i]? = some r := by
        rw [hruns, hi, List.getElem?_concat_length]
      obtain ⟨hshape', hsync'⟩ :=
        uploadFileInBackground_synced src path s st.disk r hdata hpath htot hshape hsync
      obtain ⟨-, hP, -, hT, -, -, hS, hD, -⟩ := uploadFileInBackground_frame s st.disk r Env.ok
      simp only [State.stepRun, hget, hsess, h0]
      refine ⟨(uploadFileInBackground s st.disk r Env.ok).1, ds,
        (uploadFileInBackground s st.disk r Env.ok).2.2, by simp [hheap], hreg,
        by rw [hP]; exact hpath, by rw [hT]; exact htot, ?_, hds, by rw [hS]; exact hsess,
        by rw [hD]; exact hdata, hshape', hsync'⟩
      simp [hruns, hi]
    · have hget : st.runs[i]? = none := by
        rw [hruns]
        apply List.getElem?_eq_none
        simp
        omega
      simp only [State.stepRun, hget]
      exact same

theorem Synced_init (name : String) (src : List Byte) (unixNano : Nat) :
    Synced src (generateSessionID unixNano) ("uploads/" ++ name)
      (handleUpload State.init (some ⟨name, src, false⟩) unixNano).1 := by
  refine ⟨_, [], ⟨0, ⟨src, 0⟩, Pc.entry⟩, rfl, rfl, rfl, rfl, rfl, by simp, rfl, rfl,
    Or.inl rfl, ?_⟩
  simp [Run.synced, handleUpload, State.init, Disk.bytes, Disk.content]

theorem Synced_exec (src : List Byte) (id path : String) (es : List Event) :
    ∀ st : State, sequential src st es = true → Synced src id path st →
      Synced src id path (st.exec es) := by
  induction es with
  | nil => intro st _ h; exact h
  | cons e es ih =>
    intro st hall h
    simp only [sequential, Bool.and_eq_true] at hall
    exact ih (st.apply e) hall.2 (Synced_apply src id path st e hall.1 h)

theorem take_counter (src : List Byte) (u : Nat) :
    src.take (min (u * chunkSize) src.length) = src.take (u * 100) := by
  rw [List.take_eq_take]
  simp only [chunkSize]
  omega

/-! ## The claims -/

set_option maxRecDepth 100000

/-- Claim C1, evaluated on the code. Source of 250 bytes, `chunkSize = 100`, so
`TotalChunks = 2`. The first goroutine takes `k` steps, Pause is called, and the
goroutine runs on until it returns; `k = 11` is a Pause right after the second
write, `k = 12` right after the second count, `k = 13` right after the check
that follows it. In all three the destination holds the first 200 bytes and
the goroutine returns with `UploadedChunks = 2`, `Paused` and `Completed` set:
the second count reached `TotalChunks`. Resume with the same 250 bytes is
then answered with 409, changes nothing and launches nothing, and the
destination stays at 200 of the 250 bytes. -/
theorem resume_rejected_after_two_chunks :
    ResumeRejected 11 ∧ ResumeRejected 12 ∧ ResumeRejected 13 := by
  unfold ResumeRejected
  refine ⟨?_, ?_, ?_⟩ <;> decide

/-- Claim C2. For a registered session, `handleResume` answers 409 exactly when
`Completed` is true or `Paused` is false, whatever the request carries; in
particular it does so whenever `Paused` is false; and a 409 leaves the whole
state unchanged, so no goroutine is launched. -/
theorem handleResume_conflict_iff (st : State) (sessionID : String)
    (form : Option FormFile) (s : UploadSession)
    (hreg : st.session sessionID = some s) :
    ((handleResume st sessionID form).2 = Response.error 409 "Upload cannot be resumed"
        ↔ (s.Completed = true ∨ s.Paused = false))
    ∧ (s.Paused = false →
        (handleResume st sessionID form).2 = Response.error 409 "Upload cannot be resumed")
    ∧ ((handleResume st sessionID form).2 = Response.error 409 "Upload cannot be resumed" →
        (handleResume st sessionID form).1 = st) := by
  obtain ⟨p, hp, hs⟩ := session_eq_some hreg
  have key : (handleResume st sessionID form).2 = Response.error 409 "Upload cannot be resumed"
        ↔ (s.Completed = true ∨ s.Paused = false) := by
    unfold handleResume
    simp only [hp, hs]
    by_cases hc : s.Completed = true
    · simp [hc]
    · by_cases hpa : s.Paused = true
      · cases form with
        | none => simp [hc, hpa]
        | some f =>
          cases hf : f.seekFails <;> simp [hc, hpa, File.Seek, hf]
      · simp [hc, hpa]
  refine ⟨key, fun h => key.2 (Or.inr h), fun h => ?_⟩
  have h2 := key.1 h
  unfold handleResume
  simp only [hp, hs]
  rcases h2 with h2 | h2 <;> simp [h2]

/-- Witness of claim C2 on the freshly started 250-byte session. -/
theorem handleResume_conflict_iff_witness :
    started250.session "1" = some (freshSession "f" 250)
    ∧ (((handleResume started250 "1" none).2 = Response.error 409 "Upload cannot be resumed"
        ↔ ((freshSession "f" 250).Completed = true ∨ (freshSession "f" 250).Paused = false))
      ∧ ((freshSession "f" 250).Paused = false →
          (handleResume started250 "1" none).2 = Response.error 409 "Upload cannot be resumed")
      ∧ ((handleResume started250 "1" none).2 = Response.error 409 "Upload cannot be resumed" →
          (handleResume started250 "1" none).1 = started250)) :=
  ⟨by decide, handleResume_conflict_iff started250 "1" none (freshSession "f" 250) (by decide)⟩

/-- Claim C3. Take any source and any sequence of events after Start that is
`sequential` for it: Pause, Status, loop steps whose I/O succeeds with full
reads, and Resume carrying the same bytes and issued while no goroutine is in
the loop (or answered 409). Then from each state to the next `UploadedChunks`
does not decrease, and in both it is at most `TotalChunks + 1`. The statement
is about the last event of the sequence; every earlier one is the last event
of a shorter sequence. -/
theorem uploadedChunks_monotone_bounded (name : String) (src : List Byte) (unixNano : Nat)
    (es : List Event) (e : Event)
    (hseq : sequential src (handleUpload State.init (some ⟨name, src, false⟩) unixNano).1
      (es ++ [e]) = true) :
    ∃ s s',
      ((handleUpload State.init (some ⟨name, src, false⟩) unixNano).1.exec es).session
          (generateSessionID unixNano) = some s
      ∧ (((handleUpload State.init (some ⟨name, src, false⟩) unixNano).1.exec es).apply e).session
          (generateSessionID unixNano) = some s'
      ∧ s.UploadedChunks ≤ s'.UploadedChunks
      ∧ s.UploadedChunks ≤ s.TotalChunks + 1
      ∧ s'.UploadedChunks ≤ s'.TotalChunks + 1 := by
  obtain ⟨h1, h2⟩ := sequential_append src es e _ hseq
  have inv := OneAtATime_exec src (generateSessionID unixNano) es _ h1
    (OneAtATime_init name src unixNano)
  obtain ⟨inv', hmono⟩ := OneAtATime_apply src (generateSessionID unixNano) _ e h2 inv
  obtain ⟨s, -, -, hheap, hreg, htot, hb, -⟩ := inv
  obtain ⟨s', -, -, hheap', hreg', htot', hb', -⟩ := inv'
  refine ⟨s, s', ?_, ?_, hmono s s' hheap hheap', by omega, by omega⟩
  · simp [State.session, getSession_single _ _ _ 0 hreg, hheap]
  · simp [State.session, getSession_single _ _ _ 0 hreg', hheap']

/-- Witness of claim C3: Pause before the first check, Resume, and seven steps
of the resumed goroutine. -/
theorem uploadedChunks_monotone_bounded_witness :
    sequential (List.range 250)
        (handleUpload State.init (some ⟨"f", List.range 250, false⟩) 1).1
        ([Event.pause "1", Event.step 0 Env.ok, Event.step 0 Env.ok, Event.step 0 Env.ok,
          Event.step 0 Env.ok, Event.resume "1" (some ⟨"f", List.range 250, false⟩),
          Event.step 1 Env.ok, Event.step 1 Env.ok, Event.step 1 Env.ok, Event.step 1 Env.ok,
          Event.step 1 Env.ok, Event.step 1 Env.ok] ++ [Event.step 1 Env.ok]) = true
    ∧ ∃ s s',
      ((handleUpload State.init (some ⟨"f", List.range 250, false⟩) 1).1.exec
          [Event.pause "1", Event.step 0 Env.ok, Event.step 0 Env.ok, Event.step 0 Env.ok,
          Event.step 0 Env.ok, Event.resume "1" (some ⟨"f", List.range 250, false⟩),
          Event.step 1 Env.ok, Event.step 1 Env.ok, Event.step 1 Env.ok, Event.step 1 Env.ok,
          Event.step 1 Env.ok, Event.step 1 Env.ok]).session
          (generateSessionID 1) = some s
      ∧ (((handleUpload State.init (some ⟨"f", List.range 250, false⟩) 1).1.exec
          [Event.pause "1", Event.step 0 Env.ok, Event.step 0 Env.ok, Event.step 0 Env.ok,
          Event.step 0 Env.ok, Event.resume "1" (some ⟨"f", List.range 250, false⟩),
          Event.step 1 Env.ok, Event.step 1 Env.ok, Event.step 1 Env.ok, Event.step 1 Env.ok,
          Event.step 1 Env.ok, Event.step 1 Env.ok]).apply (Event.step 1 Env.ok)).session
          (generateSessionID 1) = some s'
      ∧ s.UploadedChunks ≤ s'.UploadedChunks
      ∧ s.UploadedChunks ≤ s.TotalChunks + 1
      ∧ s'.UploadedChunks ≤ s'.TotalChunks + 1 :=
  ⟨by decide, uploadedChunks_monotone_bounded "f" (List.range 250) 1 _ _ (by decide)⟩

/-- Counterexample to claim C4 as stated. After Start with 250 bytes, a Pause, and
a Resume whose part is empty, the resumed goroutine reads end-of-stream at once
and sets `Completed`; Status then reports `Completed = true` with
`UploadedChunks = 0` and `TotalChunks = 2`. -/
theorem status_completed_below_total :
    (handleUploadStatus resumedWithEmpty "1").2 = Response.status 0 2 false true := by
  decide

/-- Claim C4, amended. When every Resume that carries a part carries one as long
as the source given to Start, then in every state reached from Start by
Pause, Resume, Status and loop steps, in any interleaving of any number of
goroutines and with any I/O errors and short reads of at least one byte,
Status does not report
`Completed = true` together with `UploadedChunks < TotalChunks`. -/
theorem status_consistent_same_length (name : String) (src : List Byte) (unixNano : Nat)
    (es : List Event)
    (hes : ∀ e ∈ es, e.sameLength src.length = true) :
    ∃ u t p c,
      (handleUploadStatus
          ((handleUpload State.init (some ⟨name, src, false⟩) unixNano).1.exec es)
          (generateSessionID unixNano)).2 = Response.status u t p c
      ∧ ¬ (c = true ∧ u < t) := by
  obtain ⟨s, hheap, hreg, -, hc, -⟩ :=
    Consistent_exec src.length (generateSessionID unixNano) es _ hes
      (Consistent_init name src unixNano)
  refine ⟨s.UploadedChunks, s.TotalChunks, s.Paused, s.Completed, ?_, ?_⟩
  · simp only [handleUploadStatus, getSession_single _ _ _ 0 hreg, if_true, hheap]
    rfl
  · intro ⟨h1, h2⟩
    have := hc h1
    omega

/-- Witness of the amended claim C4: Pause, Resume with the same 250 bytes and
six steps of the resumed goroutine. -/
theorem status_consistent_same_length_witness :
    (∀ e ∈ [Event.pause "1"] ++ List.replicate 4 (Event.step 0 Env.ok)
        ++ [Event.resume "1" (some ⟨"f", source250, false⟩)]
        ++ List.replicate 6 (Event.step 1 Env.ok), e.sameLength source250.length = true)
    ∧ ∃ u t p c,
      (handleUploadStatus
          ((handleUpload State.init (some ⟨"f", source250, false⟩) 1).1.exec
            ([Event.pause "1"] ++ List.replicate 4 (Event.step 0 Env.ok)
              ++ [Event.resume "1" (some ⟨"f", source250, false⟩)]
              ++ List.replicate 6 (Event.step 1 Env.ok)))
          (generateSessionID 1)).2 = Response.status u t p c
      ∧ ¬ (c = true ∧ u < t) :=
  ⟨by decide, status_consistent_same_length "f" source250 1 _ (by decide)⟩

/-- Counterexample to claim C5 as stated. A Resume is accepted on the 250-byte
session; the resumed goroutine counts two chunks and sets `Completed`; a Pause
then sets `Paused`, and both flags are true. -/
theorem paused_and_completed_after_resume :
    (handleResume pausedAtStart "1" (some ⟨"f", source250, false⟩)).2
        = Response.text "Upload resumed"
    ∧ ((((handleResume pausedAtStart "1" (some ⟨"f", source250, false⟩)).1.exec
          (List.replicate 12 (Event.step 1 Env.ok))).apply (Event.pause "1")).session "1").map
        UploadSession.snapshot = some (2, 2, true, true) := by
  decide

/-- Claim C5, amended. In every state reached after an accepted Resume by
Resume, Status and loop steps, without a further Pause, `Paused` is false, so
`Paused` and `Completed` are not both true. -/
theorem no_pause_after_resume_keeps_unpaused (st : State) (sessionID : String)
    (form : Option FormFile) (es : List Event)
    (hacc : (handleResume st sessionID form).2 = Response.text "Upload resumed")
    (hes : ∀ e ∈ es, e.noPause = true) :
    ∃ s, ((handleResume st sessionID form).1.exec es).session sessionID = some s
      ∧ s.Paused = false ∧ ¬ (s.Paused = true ∧ s.Completed = true) := by
  -- the state right after the accepted Resume
  have h0 : ∃ p s, getSession (handleResume st sessionID form).1 sessionID = some p
      ∧ (handleResume st sessionID form).1.heap[p]? = some s ∧ s.Paused = false := by
    unfold handleResume at hacc ⊢
    cases hp : getSession st sessionID with
    | none => simp [hp] at hacc
    | some p =>
      cases hs : st.heap[p]? with
      | none => simp [hp, hs] at hacc
      | some s =>
        have hlt := lt_of_getElem?_eq_some hs
        simp only [hp, hs] at hacc ⊢
        split at hacc
        · simp at hacc
        · rename_i hcond
          rw [if_neg hcond]
          cases form with
          | none => simp at hacc
          | some f =>
            dsimp only at hacc ⊢
            cases hseek : (File.mk f.data 0).Seek (s.UploadedChunks * chunkSize) f.seekFails with
            | none => simp [hseek] at hacc
            | some file =>
              refine ⟨p, { s with Paused := false }, ?_, ?_, rfl⟩
              · exact hp
              · simp [State.store, hlt]
  obtain ⟨p, s, hp, hs, hpa⟩ := h0
  have key : ∀ (es : List Event) (st1 : State) (s : UploadSession),
      (∀ e ∈ es, e.noPause = true) → getSession st1 sessionID = some p →
      st1.heap[p]? = some s → s.Paused = false →
      ∃ s', (st1.exec es).session sessionID = some s' ∧ s'.Paused = false := by
    intro es
    induction es with
    | nil =>
      intro st1 s _ hp hs hpa
      exact ⟨s, by simp [State.exec, State.session, hp, hs], hpa⟩
    | cons e es ih =>
      intro st1 s hall hp hs hpa
      obtain ⟨hreg, s', hs', hpa'⟩ :=
        noPause_keeps st1 e (hall e (List.mem_cons_self _ _)) p s hs hpa
      have hp' : getSession (st1.apply e) sessionID = some p := by
        unfold getSession at hp ⊢
        rw [hreg]; exact hp
      have := ih (st1.apply e) s' (fun e' he' => hall e' (List.mem_cons_of_mem _ he'))
        hp' hs' hpa'
      simpa [State.exec] using this
  obtain ⟨s', hs', hpa'⟩ := key es _ s hes hp hs hpa
  exact ⟨s', hs', hpa', by simp [hpa']⟩

/-- Witness of the amended claim C5: the accepted Resume of the counterexample
followed by twelve steps of the resumed goroutine. -/
theorem no_pause_after_resume_keeps_unpaused_witness :
    (handleResume pausedAtStart "1" (some ⟨"f", source250, false⟩)).2
        = Response.text "Upload resumed"
    ∧ (∀ e ∈ List.replicate 12 (Event.step 1 Env.ok), e.noPause = true)
    ∧ ∃ s, ((handleResume pausedAtStart "1" (some ⟨"f", source250, false⟩)).1.exec
              (List.replicate 12 (Event.step 1 Env.ok))).session "1" = some s
        ∧ s.Paused = false ∧ ¬ (s.Paused = true ∧ s.Completed = true) :=
  ⟨by decide, by decide,
    no_pause_after_resume_keeps_unpaused pausedAtStart "1" (some ⟨"f", source250, false⟩)
      (List.replicate 12 (Event.step 1 Env.ok)) (by decide) (by decide)⟩

/-- Claim C6. Start with a source of `q * chunkSize + r` bytes, `0 < r < chunkSize`,
in any server state, and let the new goroutine take `5 * q + 11` steps with
successful I/O and full reads, nothing else happening. Then the goroutine has
returned and the session has `TotalChunks = q`, `UploadedChunks = q + 1` and
`Completed = true`. -/
theorem full_run_counts_partial_chunk (st : State) (name : String) (src : List Byte)
    (unixNano : Nat) (q r : Nat)
    (hlen : src.length = q * chunkSize + r) (hr0 : 0 < r) (hr1 : r < chunkSize) :
    ∃ s run,
      ((handleUpload st (some ⟨name, src, false⟩) unixNano).1.exec
          (List.replicate (5 * q + 11) (Event.step st.runs.length Env.ok))).session
        (generateSessionID unixNano) = some s
      ∧ s.TotalChunks = q
      ∧ s.UploadedChunks = q + 1
      ∧ s.Completed = true
      ∧ ((handleUpload st (some ⟨name, src, false⟩) unixNano).1.exec
          (List.replicate (5 * q + 11) (Event.step st.runs.length Env.ok))).runs[st.runs.length]?
          = some run
      ∧ run.pc = Pc.done := by
  simp only [chunkSize] at hlen hr1
  have hsplit : 5 * q + 11 = 3 + (5 * (q + 1) + 3) := by ring
  obtain ⟨s', D', hex, hu, htot, hp', ht', hc'⟩ :=
    loop_chunks st.heap (st.register (generateSessionID unixNano) st.heap.length) st.runs src
      (freshSession name src.length)
      (st.disk.openAppend (freshSession name src.length).FilePath) rfl rfl (q + 1) (by omega)
  have hfin : (handleUpload st (some ⟨name, src, false⟩) unixNano).1.exec
          (List.replicate (5 * q + 11) (Event.step st.runs.length Env.ok))
      = State.mk (st.heap ++ [{ s' with Completed := true }])
          (st.register (generateSessionID unixNano) st.heap.length) D'
          (st.runs ++ [⟨st.heap.length, ⟨src, min ((q + 1) * 100) src.length⟩, Pc.done⟩]) := by
    rw [hsplit, exec_replicate_add, exec_replicate_add, handleUpload_ok,
      loop_prologue _ _ _ _ _ _ rfl, hex, loop_epilogue _ _ _ _ _ _ _ (by omega) hp' ht']
  rw [hfin]
  refine ⟨{ s' with Completed := true }, _, ?_, ?_, ?_, rfl,
    List.getElem?_concat_length _ _, rfl⟩
  · simp [State.session, getSession, State.register]
  · show s'.TotalChunks = q
    rw [htot]
    simp only [freshSession, chunkSize]
    omega
  · show s'.UploadedChunks = q + 1
    rw [hu]
    simp [freshSession]

/-- Witness of claim C6: 250 bytes, `q = 2`, `r = 50`. -/
theorem full_run_counts_partial_chunk_witness :
    ∃ s run,
      ((handleUpload State.init (some ⟨"f", List.range 250, false⟩) 1).1.exec
          (List.replicate (5 * 2 + 11) (Event.step State.init.runs.length Env.ok))).session
        (generateSessionID 1) = some s
      ∧ s.TotalChunks = 2
      ∧ s.UploadedChunks = 2 + 1
      ∧ s.Completed = true
      ∧ ((handleUpload State.init (some ⟨"f", List.range 250, false⟩) 1).1.exec
          (List.replicate (5 * 2 + 11)
            (Event.step State.init.runs.length Env.ok))).runs[State.init.runs.length]?
          = some run
      ∧ run.pc = Pc.done :=
  full_run_counts_partial_chunk State.init "f" (List.range 250) 1 2 50
    (by decide) (by decide) (by decide)

/-- Claim C7. For every part with readable size, `handleUpload` answers with the
token and registers under it a session with `TotalChunks` the floor of the
size by `chunkSize = 100`, `UploadedChunks = 0`, and `Paused`, `Terminated`
and `Completed` all false. -/
theorem handleUpload_registers (st : State) (name : String) (data : List Byte) (unixNano : Nat) :
    (handleUpload st (some ⟨name, data, false⟩) unixNano).2
        = Response.sessionID (generateSessionID unixNano)
    ∧ ∃ s, (handleUpload st (some ⟨name, data, false⟩) unixNano).1.session
              (generateSessionID unixNano) = some s
        ∧ s.TotalChunks = data.length / chunkSize
        ∧ chunkSize = 100
        ∧ s.FileSize = data.length
        ∧ s.UploadedChunks = 0
        ∧ s.Paused = false ∧ s.Terminated = false ∧ s.Completed = false := by
  refine ⟨by simp [handleUpload], ?_⟩
  simp [handleUpload, State.session, getSession, State.register, chunkSize]

/-- Claim C8. For a registered session that is paused and not completed and a
seekable part, `handleResume` answers "Upload resumed", stores the session
with `Paused` cleared and every other field as before, and launches one new
goroutine on the same session object whose reader stands at byte offset
`UploadedChunks * chunkSize`; registry, disk and the other goroutines are
unchanged. -/
theorem handleResume_success (st : State) (sessionID : String) (f : FormFile) (s : UploadSession)
    (hreg : st.session sessionID = some s) (hpaused : s.Paused = true)
    (hcompleted : s.Completed = false) (hseek : f.seekFails = false) :
    ∃ p, getSession st sessionID = some p ∧ st.heap[p]? = some s
      ∧ handleResume st sessionID (some f) =
          ({ heap := st.heap.set p { s with Paused := false }
             uploadSessions := st.uploadSessions
             disk := st.disk
             runs := st.runs ++ [⟨p, ⟨f.data, s.UploadedChunks * chunkSize⟩, Pc.entry⟩] },
           Response.text "Upload resumed")
      ∧ (handleResume st sessionID (some f)).1.session sessionID
          = some { s with Paused := false } := by
  obtain ⟨p, hp, hs⟩ := session_eq_some hreg
  have hlt : p < st.heap.length := lt_of_getElem?_eq_some hs
  have h : handleResume st sessionID (some f) =
          ({ heap := st.heap.set p { s with Paused := false }
             uploadSessions := st.uploadSessions
             disk := st.disk
             runs := st.runs ++ [⟨p, ⟨f.data, s.UploadedChunks * chunkSize⟩, Pc.entry⟩] },
           Response.text "Upload resumed") := by
    unfold handleResume
    simp [hp, hs, hpaused, hcompleted, hseek, File.Seek, State.store]
  refine ⟨p, hp, hs, h, ?_⟩
  rw [h]
  have hp2 : st.uploadSessions.lookup sessionID = some p := hp
  simp [State.session, getSession, hp2, hlt]

/-- Witness of claim C8 on `pausedState`. -/
theorem handleResume_success_witness :
    pausedState.session "1" = some pausedSession
    ∧ ∃ p, getSession pausedState "1" = some p ∧ pausedState.heap[p]? = some pausedSession
      ∧ handleResume pausedState "1" (some ⟨"f", source250, false⟩) =
          ({ heap := pausedState.heap.set p { pausedSession with Paused := false }
             uploadSessions := pausedState.uploadSessions
             disk := pausedState.disk
             runs := pausedState.runs
               ++ [⟨p, ⟨source250, pausedSession.UploadedChunks * chunkSize⟩, Pc.entry⟩] },
           Response.text "Upload resumed")
      ∧ (handleResume pausedState "1" (some ⟨"f", source250, false⟩)).1.session "1"
          = some { pausedSession with Paused := false } :=
  ⟨by decide, handleResume_success pausedState "1" ⟨"f", source250, false⟩ pausedSession
    (by decide) (by decide) (by decide) (by decide)⟩

/-- Claim C9, evaluated on the code. On the paused, not completed session of
`pausedState`, a Resume without a part is answered 400 and a Resume whose part
cannot be repositioned is answered 500. After either, the session has
`Paused = false` where it had `Paused = true` before the call, although no
goroutine was launched and none is running; and a second Resume, now with the
right file, is answered 409. -/
theorem handleResume_failure_clears_paused :
    (pausedState.session "1").map UploadSession.snapshot = some (1, 2, true, false)
    ∧ (handleResume pausedState "1" none).2 = Response.error 400 "File upload error"
    ∧ ((handleResume pausedState "1" none).1.session "1").map UploadSession.snapshot
        = some (1, 2, false, false)
    ∧ (handleResume pausedState "1" none).1.runs = pausedState.runs
    ∧ (handleResume pausedState "1" none).1.idle = true
    ∧ (handleResume (handleResume pausedState "1" none).1 "1"
          (some ⟨"f", source250, false⟩)).2
        = Response.error 409 "Upload cannot be resumed"
    ∧ (handleResume pausedState "1" (some ⟨"f", source250, true⟩)).2
        = Response.error 500 "Failed to seek file"
    ∧ ((handleResume pausedState "1" (some ⟨"f", source250, true⟩)).1.session "1").map
        UploadSession.snapshot = some (1, 2, false, false)
    ∧ (handleResume pausedState "1" (some ⟨"f", source250, true⟩)).1.runs = pausedState.runs
    ∧ (handleResume (handleResume pausedState "1" (some ⟨"f", source250, true⟩)).1 "1"
          (some ⟨"f", source250, false⟩)).2
        = Response.error 409 "Upload cannot be resumed" := by
  refine ⟨?_, ?_, ?_, ?_, ?_, ?_, ?_, ?_, ?_, ?_⟩ <;> decide

/-- Claim C10. In every state and for every token, a second `handlePause` right
after the first returns the same answer and leaves the whole state (sessions,
registry, disk, goroutines) as the first left it. -/
theorem handlePause_idempotent (st : State) (sessionID : String) :
    handlePause (handlePause st sessionID).1 sessionID = handlePause st sessionID := by
  unfold handlePause
  cases hp : getSession st sessionID with
  | none => simp [hp]
  | some p =>
    cases hs : st.heap[p]? with
    | none => simp [hp, hs]
    | some s =>
      have hlt : p < st.heap.length := lt_of_getElem?_eq_some hs
      simp [hp, hlt, store_store]

/-- Claim C11. For a registered token, `handlePause` answers "Upload paused" and
stores the session with `Paused = true` and every other field as before,
whatever `Paused` and `Completed` were; registry, disk and goroutines are
unchanged. For an unknown token, `handlePause`, `handleResume` and
`handleUploadStatus` each answer 404 and return the state unchanged. -/
theorem handlePause_effect_and_notFound (st : State) (sessionID : String) :
    (∀ s, st.session sessionID = some s →
      ∃ p, getSession st sessionID = some p ∧ st.heap[p]? = some s
        ∧ handlePause st sessionID
            = ({ heap := st.heap.set p { s with Paused := true }
                 uploadSessions := st.uploadSessions
                 disk := st.disk
                 runs := st.runs }, Response.text "Upload paused")
        ∧ (handlePause st sessionID).1.session sessionID = some { s with Paused := true })
    ∧ (getSession st sessionID = none →
        handlePause st sessionID = (st, Response.error 404 "Session not found")
        ∧ (∀ form, handleResume st sessionID form = (st, Response.error 404 "Session not found"))
        ∧ handleUploadStatus st sessionID = (st, Response.error 404 "Session not found")) := by
  constructor
  · intro s hreg
    obtain ⟨p, hp, hs⟩ := session_eq_some hreg
    have hlt := lt_of_getElem?_eq_some hs
    have h : handlePause st sessionID
            = ({ heap := st.heap.set p { s with Paused := true }
                 uploadSessions := st.uploadSessions
                 disk := st.disk
                 runs := st.runs }, Response.text "Upload paused") := by
      simp [handlePause, hp, hs, State.store]
    refine ⟨p, hp, hs, h, ?_⟩
    rw [h]
    have hp2 : st.uploadSessions.lookup sessionID = some p := hp
    simp [State.session, getSession, hp2, hlt]
  · intro hnone
    simp [handlePause, handleResume, handleUploadStatus, hnone]

/-- Claim C12. For a registered token, `handleUploadStatus` answers with the
session's current `UploadedChunks`, `TotalChunks`, `Paused` and `Completed`
and returns the state unchanged. -/
theorem handleUploadStatus_snapshot (st : State) (sessionID : String) (s : UploadSession)
    (hreg : st.session sessionID = some s) :
    handleUploadStatus st sessionID
      = (st, Response.status s.UploadedChunks s.TotalChunks s.Paused s.Completed) := by
  obtain ⟨p, hp, hs⟩ := session_eq_some hreg
  simp [handleUploadStatus, hp, hs]

/-- Witness of claim C12 on `pausedState`. -/
theorem handleUploadStatus_snapshot_witness :
    pausedState.session "1" = some pausedSession
    ∧ handleUploadStatus pausedState "1"
      = (pausedState, Response.status pausedSession.UploadedChunks pausedSession.TotalChunks
          pausedSession.Paused pausedSession.Completed) :=
  ⟨by decide, handleUploadStatus_snapshot pausedState "1" pausedSession (by decide)⟩

/-- Claim C13. After a successful `handleUpload` the lookup of its token returns
the pointer of the new session object, also when the token was registered
before, and the lookup of every other token returns what it returned before.
From the initial server, a token that no event has registered is not found.
No event removes an entry: a token that is found before an event is found
after it. -/
theorem registry_contract :
    (∀ (st : State) (name : String) (data : List Byte) (unixNano : Nat),
      getSession (handleUpload st (some ⟨name, data, false⟩) unixNano).1
          (generateSessionID unixNano) = some st.heap.length
      ∧ (handleUpload st (some ⟨name, data, false⟩) unixNano).1.heap[st.heap.length]?
          = some (freshSession name data.length)
      ∧ ∀ id', id' ≠ generateSessionID unixNano →
          getSession (handleUpload st (some ⟨name, data, false⟩) unixNano).1 id'
            = getSession st id')
    ∧ (∀ (es : List Event) (id : String), (es.all fun e => !e.creates id) = true →
        getSession (State.init.exec es) id = none)
    ∧ (∀ (st : State) (e : Event) (id : String), (getSession st id).isSome = true →
        (getSession (st.apply e) id).isSome = true) := by
  refine ⟨?_, ?_, ?_⟩
  · intro st name data unixNano
    rw [handleUpload_ok]
    refine ⟨lookup_register_self _ _ _, List.getElem?_concat_length _ _, ?_⟩
    intro id' hne
    exact lookup_register_ne st _ id' _ hne
  · intro es id
    have key : ∀ (es : List Event) (st : State), getSession st id = none →
        (es.all fun e => !e.creates id) = true → getSession (st.exec es) id = none := by
      intro es
      induction es with
      | nil => intro st h _; exact h
      | cons e es ih =>
        intro st h hall
        simp only [List.all_cons, Bool.and_eq_true, Bool.not_eq_true'] at hall
        have h1 : getSession (st.apply e) id = none := by
          rcases registry_apply st e with hr | ⟨f, n, rfl, hf, hr⟩
          · unfold getSession at h ⊢; rw [hr]; exact h
          · have hne : id ≠ generateSessionID n := by
              intro heq
              have := hall.1
              simp [Event.creates, hf, heq] at this
            unfold getSession at h ⊢
            rw [hr, lookup_register_ne st _ id _ hne]
            exact h
        have := ih (st.apply e) h1 (by simpa using hall.2)
        simpa [State.exec] using this
    exact key es State.init rfl
  · intro st e id h
    rcases registry_apply st e with hr | ⟨f, n, rfl, hf, hr⟩
    · unfold getSession at h ⊢; rw [hr]; exact h
    · unfold getSession at h ⊢
      rw [hr]
      by_cases hid : id = generateSessionID n
      · subst hid; rw [lookup_register_self]; rfl
      · rw [lookup_register_ne st _ id _ hid]; exact h

/-- Claim C14, evaluated on the code. On the 250-byte transfer the first goroutine
passes its check; Pause is served; Resume with the same bytes is served at
once and accepted, with the first goroutine still running: two goroutines are
now in the loop on the same session. Resume has cleared `Paused`, so the
first goroutine never sees the Pause. Run in turn to their return, they count
6 chunks for `TotalChunks = 2` and leave a destination of 500 bytes for a
250-byte source, every chunk twice. -/
theorem pause_resume_race_duplicates :
    ((started250.exec (List.replicate 4 (Event.step 0 Env.ok))).apply (Event.pause "1")).runs.map
        Run.finished = [false]
    ∧ (handleResume
          ((started250.exec (List.replicate 4 (Event.step 0 Env.ok))).apply (Event.pause "1"))
          "1" (some ⟨"f", source250, false⟩)).2 = Response.text "Upload resumed"
    ∧ raceResumed.runs.map Run.finished = [false, false]
    ∧ raceResumed.runs.map (fun r => r.session) = [0, 0]
    ∧ raceFinished.idle = true
    ∧ (raceFinished.session "1").map UploadSession.snapshot = some (6, 2, false, true)
    ∧ (raceFinished.disk.content "uploads/f").map List.length = some 500
    ∧ raceFinished.disk.content "uploads/f"
        = some (List.range 100 ++ List.range 100
            ++ (List.range 100).map (fun n => n + 100) ++ (List.range 100).map (fun n => n + 100)
            ++ (List.range 50).map (fun n => n + 200) ++ (List.range 50).map (fun n => n + 200)) := by
  refine ⟨?_, ?_, ?_, ?_, ?_, ?_, ?_, ?_⟩ <;> decide

/-- Counterexample to claim C15 as stated. In the sequential, error-free run of
the 250-byte transfer, right after the first write the destination holds 100
bytes while `UploadedChunks` is still 0, so it is not the first
`min (0 * chunkSize) 250` bytes of the source. -/
theorem destination_ahead_of_counter :
    sequential source250 started250 (List.replicate 6 (Event.step 0 Env.ok)) = true
    ∧ (firstChunkWritten.session "1").map UploadSession.snapshot = some (0, 2, false, false)
    ∧ firstChunkWritten.disk.bytes "uploads/f" = List.range 100
    ∧ firstChunkWritten.disk.bytes "uploads/f"
        ≠ source250.take (min (0 * chunkSize) source250.length) := by
  refine ⟨?_, ?_, ?_, ?_⟩ <;> decide

/-- Claim C15, amended. In every sequential, error-free execution from Start
with full reads and every Resume given the source bytes: whenever no
goroutine stands between a write and its count, the destination equals the
first `min (UploadedChunks * chunkSize) totalSize` bytes of the source;
between a write and its count it is exactly one chunk ahead; and whenever no
goroutine is running and the session is paused and not completed, the length
of the destination is `UploadedChunks * chunkSize`, the offset at which the
goroutine launched by Resume starts to read. -/
theorem destination_matches_counter (name : String) (src : List Byte) (unixNano : Nat) (es : List Event)
    (hseq : sequential src (handleUpload State.init (some ⟨name, src, false⟩) unixNano).1 es
      = true) :
    ∃ s,
      ((handleUpload State.init (some ⟨name, src, false⟩) unixNano).1.exec es).session
          (generateSessionID unixNano) = some s
      ∧ ((∀ r ∈ ((handleUpload State.init (some ⟨name, src, false⟩) unixNano).1.exec es).runs,
            r.pc ≠ Pc.count) →
          ((handleUpload State.init (some ⟨name, src, false⟩) unixNano).1.exec es).disk.bytes
              ("uploads/" ++ name)
            = src.take (min (s.UploadedChunks * chunkSize) src.length))
      ∧ ((∃ r ∈ ((handleUpload State.init (some ⟨name, src, false⟩) unixNano).1.exec es).runs,
            r.pc = Pc.count) →
          ((handleUpload State.init (some ⟨name, src, false⟩) unixNano).1.exec es).disk.bytes
              ("uploads/" ++ name)
            = src.take (min ((s.UploadedChunks + 1) * chunkSize) src.length))
      ∧ (((handleUpload State.init (some ⟨name, src, false⟩) unixNano).1.exec es).idle = true →
          s.Paused = true → s.Completed = false →
          (((handleUpload State.init (some ⟨name, src, false⟩) unixNano).1.exec es).disk.bytes
              ("uploads/" ++ name)).length = s.UploadedChunks * chunkSize
          ∧ (handleResume
                ((handleUpload State.init (some ⟨name, src, false⟩) unixNano).1.exec es)
                (generateSessionID unixNano) (some ⟨name, src, false⟩)).1.runs
              = ((handleUpload State.init (some ⟨name, src, false⟩) unixNano).1.exec es).runs
                ++ [⟨0, ⟨src,
                  (((handleUpload State.init (some ⟨name, src, false⟩) unixNano).1.exec
                    es).disk.bytes ("uploads/" ++ name)).length⟩, Pc.entry⟩]) := by
  obtain ⟨s, ds, r, hheap, hreg, hpath, htot, hruns, hds, hsess, hdata, hshape, hsync⟩ :=
    Synced_exec src (generateSessionID unixNano) ("uploads/" ++ name) es _ hseq
      (Synced_init name src unixNano)
  generalize (handleUpload State.init (some ⟨name, src, false⟩) unixNano).1.exec es = st
    at hheap hreg hruns hshape hsync
  have h0 : st.heap[0]? = some s := by rw [hheap]; rfl
  refine ⟨s, by simp [State.session, getSession_single _ _ _ 0 hreg, hheap], ?_, ?_, ?_⟩
  · intro hno
    have hr : r.pc ≠ Pc.count := hno r (by rw [hruns]; simp)
    rw [take_counter]
    obtain ⟨sess, file, pc⟩ := r
    cases pc <;> simp only [Run.synced] at hsync <;> first | exact hsync.1 | exact absurd rfl hr
  · intro ⟨r', hr', hpc'⟩
    rw [hruns, List.mem_append, List.mem_singleton] at hr'
    have hr : r.pc = Pc.count := by
      rcases hr' with h | h
      · rw [hds r' h] at hpc'; cases hpc'
      · rw [← h]; exact hpc'
    rw [take_counter]
    obtain ⟨sess, file, pc⟩ := r
    dsimp only at hr
    subst hr
    simp only [Run.synced] at hsync
    rw [hsync.1]
    congr 1
    ring
  · intro hidle hp hc
    have hdone : r.pc = Pc.done := idle_last hruns hidle
    obtain ⟨sess, file, pc⟩ := r
    dsimp only at hdone hsess
    subst hdone
    simp only [Run.synced] at hsync
    have hlen : (st.disk.bytes ("uploads/" ++ name)).length = s.UploadedChunks * chunkSize := by
      rw [hsync.1, List.length_take]
      have := hsync.2 hc
      simp only [chunkSize]
      omega
    refine ⟨hlen, ?_⟩
    rw [hlen]
    simp [handleResume, getSession_single _ _ _ 0 hreg, h0, hp, hc, File.Seek, State.store]

/-- Witness of the amended claim C15: the transfer paused after its first
chunk, the goroutine returned. -/
theorem destination_matches_counter_witness :
    sequential source250 (handleUpload State.init (some ⟨"f", source250, false⟩) 1).1
        (List.replicate 7 (Event.step 0 Env.ok) ++ [Event.pause "1", Event.step 0 Env.ok])
      = true
    ∧ ∃ s,
      ((handleUpload State.init (some ⟨"f", source250, false⟩) 1).1.exec
          (List.replicate 7 (Event.step 0 Env.ok)
            ++ [Event.pause "1", Event.step 0 Env.ok])).session (generateSessionID 1) = some s
      ∧ ((∀ r ∈ ((handleUpload State.init (some ⟨"f", source250, false⟩) 1).1.exec
            (List.replicate 7 (Event.step 0 Env.ok)
              ++ [Event.pause "1", Event.step 0 Env.ok])).runs, r.pc ≠ Pc.count) →
          ((handleUpload State.init (some ⟨"f", source250, false⟩) 1).1.exec
            (List.replicate 7 (Event.step 0 Env.ok)
              ++ [Event.pause "1", Event.step 0 Env.ok])).disk.bytes ("uploads/" ++ "f")
            = source250.take (min (s.UploadedChunks * chunkSize) source250.length))
      ∧ ((∃ r ∈ ((handleUpload State.init (some ⟨"f", source250, false⟩) 1).1.exec
            (List.replicate 7 (Event.step 0 Env.ok)
              ++ [Event.pause "1", Event.step 0 Env.ok])).runs, r.pc = Pc.count) →
          ((handleUpload State.init (some ⟨"f", source250, false⟩) 1).1.exec
            (List.replicate 7 (Event.step 0 Env.ok)
              ++ [Event.pause "1", Event.step 0 Env.ok])).disk.bytes ("uploads/" ++ "f")
            = source250.take (min ((s.UploadedChunks + 1) * chunkSize) source250.length))
      ∧ (((handleUpload State.init (some ⟨"f", source250, false⟩) 1).1.exec
            (List.replicate 7 (Event.step 0 Env.ok)
              ++ [Event.pause "1", Event.step 0 Env.ok])).idle = true →
          s.Paused = true → s.Completed = false →
          (((handleUpload State.init (some ⟨"f", source250, false⟩) 1).1.exec
            (List.replicate 7 (Event.step 0 Env.ok)
              ++ [Event.pause "1", Event.step 0 Env.ok])).disk.bytes
              ("uploads/" ++ "f")).length = s.UploadedChunks * chunkSize
          ∧ (handleResume
                ((handleUpload State.init (some ⟨"f", source250, false⟩) 1).1.exec
                  (List.replicate 7 (Event.step 0 Env.ok)
                    ++ [Event.pause "1", Event.step 0 Env.ok]))
                (generateSessionID 1) (some ⟨"f", source250, false⟩)).1.runs
              = ((handleUpload State.init (some ⟨"f", source250, false⟩) 1).1.exec
                  (List.replicate 7 (Event.step 0 Env.ok)
                    ++ [Event.pause "1", Event.step 0 Env.ok])).runs
                ++ [⟨0, ⟨source250,
                  (((handleUpload State.init (some ⟨"f", source250, false⟩) 1).1.exec
                    (List.replicate 7 (Event.step 0 Env.ok)
                      ++ [Event.pause "1", Event.step 0 Env.ok])).disk.bytes
                    ("uploads/" ++ "f")).length⟩, Pc.entry⟩]) :=
  ⟨by decide, destination_matches_counter "f" source250 1 _ (by decide)⟩

/-- Claim C16. A goroutine launched on a session whose `Paused` or `Terminated`
flag is true, and left alone for its first four steps, has returned whatever
the I/O outcomes are; its reader is where it was, no file has gained or lost
a byte, and `UploadedChunks`, `Paused` and `Terminated` are unchanged. When
the session is not completed and the destination can be opened, the first
three steps bring it to the check of the flags, with nothing read, and the
fourth is the return from there. -/
theorem paused_run_returns_at_check (s : UploadSession) (d : Disk) (r : Run) (e1 e2 e3 e4 : Env)
    (hpc : r.pc = Pc.entry) (hflag : s.Paused = true ∨ s.Terminated = true) :
    (runSteps [e1, e2, e3, e4] (s, d, r)).2.2.pc = Pc.done
    ∧ (runSteps [e1, e2, e3, e4] (s, d, r)).2.2.file = r.file
    ∧ (∀ path, (runSteps [e1, e2, e3, e4] (s, d, r)).2.1.bytes path = d.bytes path)
    ∧ (runSteps [e1, e2, e3, e4] (s, d, r)).1.UploadedChunks = s.UploadedChunks
    ∧ (runSteps [e1, e2, e3, e4] (s, d, r)).1.Paused = s.Paused
    ∧ (runSteps [e1, e2, e3, e4] (s, d, r)).1.Terminated = s.Terminated
    ∧ (s.Completed = false → e2 ≠ Env.fail →
        (runSteps [e1, e2, e3] (s, d, r)).2.2.pc = Pc.check
        ∧ (runSteps [e1, e2, e3] (s, d, r)).2.2.file = r.file) := by
  obtain ⟨sess, file, pc⟩ := r
  dsimp only at hpc
  subst hpc
  have hcond : (s.Paused || s.Terminated) = true := by
    rcases hflag with h | h <;> simp [h]
  cases hc : s.Completed with
  | true =>
    simp [runSteps, uploadFileInBackground, hc]
  | false =>
    cases e2 with
    | fail => simp [runSteps, uploadFileInBackground, hc]
    | ok =>
      simp [runSteps, uploadFileInBackground, hc, hcond, bytes_openAppend]
    | short k =>
      simp [runSteps, uploadFileInBackground, hc, hcond, bytes_openAppend]

/-- Witness of claim C16: a goroutine launched on `pausedSession`. -/
theorem paused_run_returns_at_check_witness :
    (runSteps [Env.ok, Env.ok, Env.ok, Env.ok]
        (pausedSession, pausedState.disk, ⟨0, ⟨source250, 100⟩, Pc.entry⟩)).2.2.pc = Pc.done
    ∧ (runSteps [Env.ok, Env.ok, Env.ok, Env.ok]
        (pausedSession, pausedState.disk, ⟨0, ⟨source250, 100⟩, Pc.entry⟩)).2.2.file
        = (Run.mk 0 ⟨source250, 100⟩ Pc.entry).file
    ∧ (∀ path, (runSteps [Env.ok, Env.ok, Env.ok, Env.ok]
        (pausedSession, pausedState.disk, ⟨0, ⟨source250, 100⟩, Pc.entry⟩)).2.1.bytes path
        = pausedState.disk.bytes path)
    ∧ (runSteps [Env.ok, Env.ok, Env.ok, Env.ok]
        (pausedSession, pausedState.disk, ⟨0, ⟨source250, 100⟩, Pc.entry⟩)).1.UploadedChunks
        = pausedSession.UploadedChunks
    ∧ (runSteps [Env.ok, Env.ok, Env.ok, Env.ok]
        (pausedSession, pausedState.disk, ⟨0, ⟨source250, 100⟩, Pc.entry⟩)).1.Paused
        = pausedSession.Paused
    ∧ (runSteps [Env.ok, Env.ok, Env.ok, Env.ok]
        (pausedSession, pausedState.disk, ⟨0, ⟨source250, 100⟩, Pc.entry⟩)).1.Terminated
        = pausedSession.Terminated
    ∧ (pausedSession.Completed = false → Env.ok ≠ Env.fail →
        (runSteps [Env.ok, Env.ok, Env.ok]
          (pausedSession, pausedState.disk, ⟨0, ⟨source250, 100⟩, Pc.entry⟩)).2.2.pc = Pc.check
        ∧ (runSteps [Env.ok, Env.ok, Env.ok]
          (pausedSession, pausedState.disk, ⟨0, ⟨source250, 100⟩, Pc.entry⟩)).2.2.file
          = (Run.mk 0 ⟨source250, 100⟩ Pc.entry).file) :=
  paused_run_returns_at_check pausedSession pausedState.disk ⟨0, ⟨source250, 100⟩, Pc.entry⟩
    Env.ok Env.ok Env.ok Env.ok rfl (Or.inl rfl)

/-- Claim C17. Take a goroutine at the check that opens an iteration. If it
goes on to read and the read fails with an error other than end-of-stream,
or it reads a chunk and the write of that chunk fails, the goroutine returns
in that step and the session object is the one the iteration started with:
`UploadedChunks`, `Paused`, `Terminated` and `Completed` are unchanged. -/
theorem io_failure_leaves_session (s : UploadSession) (d : Disk) (r : Run) (env : Env)
    (hpc : r.pc = Pc.check) :
    ((runSteps [env] (s, d, r)).2.2.pc = Pc.read →
      (runSteps [env, Env.fail] (s, d, r)).1 = s
      ∧ (runSteps [env, Env.fail] (s, d, r)).2.2.pc = Pc.done)
    ∧ (∀ env2 buf, (runSteps [env, env2] (s, d, r)).2.2.pc = Pc.write buf →
      (runSteps [env, env2, Env.fail] (s, d, r)).1 = s
      ∧ (runSteps [env, env2, Env.fail] (s, d, r)).2.2.pc = Pc.done) := by
  obtain ⟨sess, file, pc⟩ := r
  dsimp only at hpc
  subst hpc
  by_cases hcond : (s.Paused || s.Terminated) = true
  · constructor
    · intro hread
      simp [runSteps, uploadFileInBackground, hcond] at hread
    · intro env2 buf hw
      simp [runSteps, uploadFileInBackground, hcond] at hw
  · constructor
    · intro _
      simp [runSteps, uploadFileInBackground, hcond, File.Read]
    · intro env2 buf hw
      simp only [runSteps, uploadFileInBackground, hcond, Bool.false_eq_true, if_false] at hw ⊢
      rcases File.Read_cases file env2 with h | ⟨hle, h⟩ | ⟨hlt, bs, h, h1, h2, h3, _⟩
      · rw [h] at hw; simp at hw
      · rw [h] at hw; simp at hw
      · rw [h]
        have hne : bs.length ≠ 0 := by omega
        simp only [hne, if_false]
        refine ⟨?_, ?_⟩ <;> first | rfl | trivial

/-- Witness of claim C17: the first iteration of the 250-byte transfer. -/
theorem io_failure_leaves_session_witness :
    ((runSteps [Env.ok] (freshSession "f" 250, [("uploads/f", [])],
          ⟨0, ⟨source250, 0⟩, Pc.check⟩)).2.2.pc = Pc.read →
      (runSteps [Env.ok, Env.fail] (freshSession "f" 250, [("uploads/f", [])],
          ⟨0, ⟨source250, 0⟩, Pc.check⟩)).1 = freshSession "f" 250
      ∧ (runSteps [Env.ok, Env.fail] (freshSession "f" 250, [("uploads/f", [])],
          ⟨0, ⟨source250, 0⟩, Pc.check⟩)).2.2.pc = Pc.done)
    ∧ (∀ env2 buf, (runSteps [Env.ok, env2] (freshSession "f" 250, [("uploads/f", [])],
          ⟨0, ⟨source250, 0⟩, Pc.check⟩)).2.2.pc = Pc.write buf →
      (runSteps [Env.ok, env2, Env.fail] (freshSession "f" 250, [("uploads/f", [])],
          ⟨0, ⟨source250, 0⟩, Pc.check⟩)).1 = freshSession "f" 250
      ∧ (runSteps [Env.ok, env2, Env.fail] (freshSession "f" 250, [("uploads/f", [])],
          ⟨0, ⟨source250, 0⟩, Pc.check⟩)).2.2.pc = Pc.done) :=
  io_failure_leaves_session (freshSession "f" 250) [("uploads/f", [])]
    ⟨0, ⟨source250, 0⟩, Pc.check⟩ Env.ok rfl

/-- Claim C18. In every execution from Start by Pause, Resume, Status and loop
steps in which a goroutine is launched only when none is running the loop
(any I/O outcomes, any Resume requests), a session whose `Completed` flag is
true after `es` has it true after every continuation `es'`. And a goroutine
launched on a completed session returns at its first step, changing nothing. -/
theorem completed_stays_set (name : String) (src : List Byte) (unixNano : Nat) (es es' : List Event)
    (hex : exclusive (handleUpload State.init (some ⟨name, src, false⟩) unixNano).1
      (es ++ es') = true) :
    (∃ s s',
      ((handleUpload State.init (some ⟨name, src, false⟩) unixNano).1.exec es).session
          (generateSessionID unixNano) = some s
      ∧ ((handleUpload State.init (some ⟨name, src, false⟩) unixNano).1.exec (es ++ es')).session
          (generateSessionID unixNano) = some s'
      ∧ (s.Completed = true → s'.Completed = true))
    ∧ ∀ (s : UploadSession) (d : Disk) (r : Run) (env : Env),
        r.pc = Pc.entry → s.Completed = true →
        uploadFileInBackground s d r env = (s, d, { r with pc := Pc.done }) := by
  constructor
  · obtain ⟨h1, h2⟩ := exclusive_append es es' _ hex
    obtain ⟨inv1, -⟩ := Rearmable_exec (generateSessionID unixNano) es _ h1
      (Rearmable_init name src unixNano)
    obtain ⟨inv2, hkeep⟩ := Rearmable_exec (generateSessionID unixNano) es' _ h2 inv1
    obtain ⟨s, -, -, hheap, hreg, -⟩ := inv1
    obtain ⟨s', -, -, hheap', hreg', -⟩ := inv2
    rw [exec_append]
    refine ⟨s, s', ?_, ?_, hkeep s s' hheap hheap'⟩
    · simp [State.session, getSession_single _ _ _ 0 hreg, hheap]
    · simp [State.session, getSession_single _ _ _ 0 hreg', hheap']
  · intro s d r env hpc hc
    simp [uploadFileInBackground, hpc, hc]

/-- Witness of claim C18: the 250-byte transfer run to its end (21 steps), then
a Pause, a rejected Resume and a Status. -/
theorem completed_stays_set_witness :
    exclusive (handleUpload State.init (some ⟨"f", source250, false⟩) 1).1
        (List.replicate 21 (Event.step 0 Env.ok)
          ++ [Event.pause "1", Event.resume "1" (some ⟨"f", source250, false⟩),
              Event.status "1"]) = true
    ∧ ((∃ s s',
        ((handleUpload State.init (some ⟨"f", source250, false⟩) 1).1.exec
            (List.replicate 21 (Event.step 0 Env.ok))).session (generateSessionID 1) = some s
        ∧ ((handleUpload State.init (some ⟨"f", source250, false⟩) 1).1.exec
            (List.replicate 21 (Event.step 0 Env.ok)
              ++ [Event.pause "1", Event.resume "1" (some ⟨"f", source250, false⟩),
                  Event.status "1"])).session (generateSessionID 1) = some s'
        ∧ (s.Completed = true → s'.Completed = true))
      ∧ ∀ (s : UploadSession) (d : Disk) (r : Run) (env : Env),
          r.pc = Pc.entry → s.Completed = true →
          uploadFileInBackground s d r env = (s, d, { r with pc := Pc.done })) :=
  ⟨by decide, completed_stays_set "f" source250 1 _ _ (by decide)⟩

/-- Claim C19. In every state reached from the initial server by any sequence of
Start, Pause, Resume, Status and loop steps, every session object has
`Terminated = false`: no handler and no step of the loop writes the flag. -/
theorem terminated_never_set (es : List Event) :
    ((State.init.exec es).heap.all fun s => !s.Terminated) = true := by
  have key : ∀ (es : List Event) (st : State), (∀ s ∈ st.heap, s.Terminated = false) →
      ∀ s ∈ (st.exec es).heap, s.Terminated = false := by
    intro es
    induction es with
    | nil => intro st h; exact h
    | cons e es ih =>
      intro st h
      have := ih (st.apply e) (terminated_apply st e h)
      simpa [State.exec] using this
  have h0 := key es State.init (by intro s hs; simp [State.init] at hs)
  rw [List.all_eq_true]
  intro s hs
  simp [h0 s hs]

end Resumable
